import Mathlib

/-!
Verification development for the RenderDown markdown converter
(`src/markdown-parser.js`).  The JavaScript source is shallowly embedded:

* JavaScript regular expressions are represented by an explicit `RE` syntax
  tree and executed by a backtracking matcher `mtch` that mirrors the
  semantics of the JS engine (leftmost match, ordered alternation,
  greedy/lazy quantifiers, capture groups, backreferences, the single-char
  negative lookbehinds and negative lookaheads appearing in the source,
  `^`/`$` with and without the `m` flag, word boundaries).  Each regex
  literal of the source is transcribed constructor by constructor.
* Each pass of the converter (`normalizeContent`, `protectCodeBlocks`,
  `processHeaders`, ..., `finalCleanup`) is a Lean function following the
  JS control flow statement by statement.
* JS strings are Lean `String`s / `List Char`; array push/pop stacks are
  Lean lists with the most recently pushed element at the head.
-/

namespace RenderDown

/-! ## JavaScript character classes and elementary string helpers -/

/-- The JS `\s` class: ASCII whitespace, NBSP, BOM and the Unicode space
separators that can appear in practice.  (`String.prototype.trim` uses the
same set.) -/
def jsWs (c : Char) : Bool :=
  c = ' ' || c = '\t' || c = '\n' || c = '\r' || c = '\u000B' || c = '\u000C' ||
  c = '\u00A0' || c = '\u1680' || ('\u2000' ≤ c && c ≤ '\u200A') ||
  c = '\u2028' || c = '\u2029' || c = '\u202F' || c = '\u205F' ||
  c = '\u3000' || c = '\uFEFF'

/-- The JS `\w` class. -/
def jsWord (c : Char) : Bool :=
  ('a' ≤ c && c ≤ 'z') || ('A' ≤ c && c ≤ 'Z') || ('0' ≤ c && c ≤ '9') || c = '_'

/-- The JS `\d` class (also `[0-9]`). -/
def jsDigit (c : Char) : Bool := '0' ≤ c && c ≤ '9'

/-- `[a-z]`. -/
def isLowerAZ (c : Char) : Bool := 'a' ≤ c && c ≤ 'z'

/-- `[A-Z]`. -/
def isUpperAZ (c : Char) : Bool := 'A' ≤ c && c ≤ 'Z'

/-- `[a-zA-Z]`. -/
def isAlpha (c : Char) : Bool := isLowerAZ c || isUpperAZ c

/-- `String.prototype.trim`: drop leading and trailing `\s` characters. -/
def jsTrimList (s : List Char) : List Char :=
  ((s.dropWhile jsWs).reverse.dropWhile jsWs).reverse

def jsTrim (s : String) : String := String.mk (jsTrimList s.data)

/-- Does `pat` occur at position `pos` of `s`? -/
def subAt (s pat : List Char) (pos : Nat) : Bool :=
  pat.enum.all fun pc => s.get? (pos + pc.1) = some pc.2

/-- First occurrence of `pat` in `s` at a position `≥ pos`
(`String.prototype.indexOf`); `none` when absent.  The `fuel` argument only
bounds the scan and is always supplied as `s.length + 1 - pos`. -/
def findSubAux (s pat : List Char) : Nat → Nat → Option Nat
  | 0, _ => none
  | fuel + 1, pos =>
    if subAt s pat pos then some pos
    else if pos < s.length then findSubAux s pat fuel (pos + 1)
    else none

def findSub (s pat : List Char) (pos : Nat) : Option Nat :=
  findSubAux s pat (s.length + 1 - pos) pos

/-- `String.prototype.includes`. -/
def jsIncludes (s sub : String) : Bool := (findSub s.data sub.data 0).isSome

/-- The slice `s[a..b)`. -/
def slice (s : List Char) (a b : Nat) : List Char := (s.drop a).take (b - a)

/-- Split on a literal `'\n'` (`text.split('\n')`). -/
def splitNlChars : List Char → List (List Char)
  | [] => [[]]
  | c :: rest =>
    let tail := splitNlChars rest
    if c = '\n' then [] :: tail
    else (c :: tail.headD []) :: tail.tail

def splitNl (s : String) : List String := (splitNlChars s.data).map String.mk

/-- Join with `'\n'` (`array.join('\n')`). -/
def joinNl : List String → String
  | [] => ""
  | [l] => l
  | l :: ls => l ++ "\n" ++ joinNl ls

/-! ## A backtracking regex engine with JS semantics

`RE` is the abstract syntax of the regex dialect used by the source.  The
matcher `mtch` is written in continuation-passing style: `k` receives the
position and capture list after the current node has matched, and returning
`none` makes the engine backtrack.  Alternation is ordered, `star` carries a
laziness flag, captures are recorded on group exit (latest entry wins).  The
`fuel` argument makes the recursion structural; every concrete run is given
ample fuel. -/

inductive RE : Type where
  | eps : RE
  | chr : Char → RE
  /-- character class; the `Bool` is `true` for a negated class `[^...]`. -/
  | cls : Bool → (Char → Bool) → RE
  /-- `.` (without the `s` flag): any char except `'\n'`. -/
  | dot : RE
  | seq : RE → RE → RE
  | alt : RE → RE → RE
  /-- `r*` (greedy) when the flag is `false`, `r*?` (lazy) when `true`. -/
  | star : Bool → RE → RE
  /-- capture group with 1-based index. -/
  | grp : Nat → RE → RE
  /-- backreference `\i`. -/
  | bref : Nat → RE
  /-- `^`; the flag is the regex's `m` flag. -/
  | bol : Bool → RE
  /-- `$`; the flag is the regex's `m` flag. -/
  | eol : Bool → RE
  /-- single-character negative lookbehind `(?<!X)`. -/
  | nlb : (Char → Bool) → RE
  /-- negative lookahead `(?!r)`. -/
  | nla : RE → RE
  /-- word boundary `\b`. -/
  | wb : RE

/-- `r+` = `r` then `r*` (same backtracking order as the JS engine). -/
def rePlus (lazy : Bool) (r : RE) : RE := .seq r (.star lazy r)

/-- `r?` (greedy). -/
def reOpt (r : RE) : RE := .alt r .eps

/-- `r{0,n}` (greedy): at each level the consuming branch is tried first. -/
def reUpTo : Nat → RE → RE
  | 0, _ => .eps
  | n + 1, r => .alt (.seq r (reUpTo n r)) .eps

/-- A literal string. -/
def reLit (s : String) : RE :=
  s.data.foldr (fun c acc => .seq (.chr c) acc) .eps

/-- A literal string under the `i` flag: each letter matches either case. -/
def reLitI (s : String) : RE :=
  s.data.foldr (fun c acc => .seq (.cls false fun x => x = c.toLower || x = c.toUpper) acc) .eps

/-- Capture environment: `(group index, start, stop)`, most recent first. -/
abbrev Caps := List (Nat × Nat × Nat)

def capLookup (i : Nat) : Caps → Option (Nat × Nat)
  | [] => none
  | (j, b, e) :: rest => if j = i then some (b, e) else capLookup i rest

abbrev Cont := Nat → Caps → Option (Nat × Caps)

/-- Do the characters `s[b..e)` occur again starting at `pos`?  (Used for
backreferences.) -/
def sliceAt (s : List Char) (b e pos : Nat) : Bool := subAt s (slice s b e) pos

/-- Is there a word boundary at `pos`? -/
def atWb (s : List Char) (pos : Nat) : Bool :=
  let before := match s.get? (pos - 1) with
    | some c => pos ≠ 0 && jsWord c
    | none => false
  let after := match s.get? pos with
    | some c => jsWord c
    | none => false
  before != after

def mtch : Nat → List Char → RE → Nat → Caps → Cont → Option (Nat × Caps)
  | 0, _, _, _, _, _ => none
  | fuel + 1, s, r, pos, caps, k =>
    match r with
    | .eps => k pos caps
    | .chr c =>
      match s.get? pos with
      | some c' => if c' = c then k (pos + 1) caps else none
      | none => none
    | .cls neg f =>
      match s.get? pos with
      | some c' => if f c' ≠ neg then k (pos + 1) caps else none
      | none => none
    | .dot =>
      match s.get? pos with
      | some c' => if c' ≠ '\n' then k (pos + 1) caps else none
      | none => none
    | .seq a b => mtch fuel s a pos caps fun p c => mtch fuel s b p c k
    | .alt a b =>
      (mtch fuel s a pos caps k).orElse fun _ => mtch fuel s b pos caps k
    | .star lz a =>
      if lz then
        (k pos caps).orElse fun _ =>
          mtch fuel s a pos caps fun p c =>
            if p = pos then none else mtch fuel s (.star lz a) p c k
      else
        (mtch fuel s a pos caps fun p c =>
          if p = pos then none else mtch fuel s (.star lz a) p c k).orElse
          fun _ => k pos caps
    | .grp i a => mtch fuel s a pos caps fun p c => k p ((i, pos, p) :: c)
    | .bref i =>
      match capLookup i caps with
      | none => k pos caps
      | some (b, e) => if sliceAt s b e pos then k (pos + (e - b)) caps else none
    | .bol m =>
      if pos = 0 then k pos caps
      else if m then
        match s.get? (pos - 1) with
        | some c' => if c' = '\n' then k pos caps else none
        | none => none
      else none
    | .eol m =>
      if pos = s.length then k pos caps
      else if m then
        match s.get? pos with
        | some c' => if c' = '\n' then k pos caps else none
        | none => none
      else none
    | .nlb f =>
      if pos = 0 then k pos caps
      else
        match s.get? (pos - 1) with
        | some c' => if f c' then none else k pos caps
        | none => k pos caps
    | .nla a =>
      match mtch fuel s a pos caps (fun p c => some (p, c)) with
      | some _ => none
      | none => k pos caps
    | .wb => if atWb s pos then k pos caps else none

/-- Fuel that is always ample for the patterns of the source on the inputs
appearing in this development. -/
def bigFuel : Nat := 1000000

/-- Attempt a match anchored at `pos` (the JS engine's single attempt). -/
def matchAt (s : List Char) (r : RE) (pos : Nat) : Option (Nat × Caps) :=
  mtch bigFuel s r pos [] fun p c => some (p, c)

/-- Leftmost match at a position `≥ pos`: the scan the JS engine performs. -/
def searchAux (s : List Char) (r : RE) : Nat → Nat → Option (Nat × Nat × Caps)
  | 0, _ => none
  | fuel + 1, pos =>
    match matchAt s r pos with
    | some (e, caps) => some (pos, e, caps)
    | none => if pos < s.length then searchAux s r fuel (pos + 1) else none

def searchFrom (s : List Char) (r : RE) (pos : Nat) : Option (Nat × Nat × Caps) :=
  searchAux s r (s.length + 1 - pos) pos

/-- Text of capture group `i` (empty for an unset group, like `$i` in a JS
replacement string). -/
def capStr (s : List Char) (caps : Caps) (i : Nat) : String :=
  match capLookup i caps with
  | some (b, e) => String.mk (slice s b e)
  | none => ""

/-- `String.prototype.replace` with a `g`-flagged regex and a replacer
function.  The replacer receives the subject, the match span and the
captures.  On an empty match the engine emits one character and moves on
(JS advances `lastIndex` by one). -/
def replaceAllAux (s : List Char) (r : RE) (f : List Char → Nat → Nat → Caps → List Char) :
    Nat → Nat → List Char
  | 0, pos => s.drop pos
  | fuel + 1, pos =>
    match searchFrom s r pos with
    | none => s.drop pos
    | some (st, en, caps) =>
      slice s pos st ++ f s st en caps ++
        (if en = st then
          match s.get? st with
          | some ch => ch :: replaceAllAux s r f fuel (st + 1)
          | none => []
        else replaceAllAux s r f fuel en)

def jsReplaceAll (s : String) (r : RE) (f : List Char → Nat → Nat → Caps → List Char) : String :=
  String.mk (replaceAllAux s.data r f (s.length + 1) 0)

/-- `String.prototype.match` without the `g` flag: leftmost match with its
span and captures. -/
def jsMatch (s : String) (r : RE) : Option (Nat × Nat × Caps) := searchFrom s.data r 0

/-- `RegExp.prototype.test`. -/
def jsTest (s : String) (r : RE) : Bool := (jsMatch s r).isSome

/-- `String.prototype.split` with a regex separator (no captures, and the
separators of the source never match the empty string). -/
def splitReAux (s : List Char) (r : RE) : Nat → Nat → List (List Char)
  | 0, pos => [s.drop pos]
  | fuel + 1, pos =>
    match searchFrom s r pos with
    | none => [s.drop pos]
    | some (st, en, _) =>
      if en = st then [s.drop pos]
      else slice s pos st :: splitReAux s r fuel en

def jsSplitRe (s : String) (r : RE) : List String :=
  ((splitReAux s.data r (s.length + 1) 0).map String.mk)

/-- Expansion of `$`-sequences in a replacement string
(`String.prototype.replace` with string arguments): `$$`, `$&`, `` $` ``
and `$'` are interpreted, everything else is literal. -/
def dollarExpand (before matched after : List Char) : List Char → List Char
  | [] => []
  | '$' :: '$' :: rest => '$' :: dollarExpand before matched after rest
  | '$' :: '&' :: rest => matched ++ dollarExpand before matched after rest
  | '$' :: '`' :: rest => before ++ dollarExpand before matched after rest
  | '$' :: '\'' :: rest => after ++ dollarExpand before matched after rest
  | c :: rest => c :: dollarExpand before matched after rest

/-- `String.prototype.replace` with a plain string pattern: the FIRST
occurrence of `pat`, found by text search, is replaced (after `$`-expansion
of the replacement).  This is the operation `restoreCodeBlocks` relies on. -/
def jsReplaceFirst (s pat rep : String) : String :=
  match findSub s.data pat.data 0 with
  | none => s
  | some i =>
    let before := s.data.take i
    let after := s.data.drop (i + pat.length)
    String.mk (before ++ dollarExpand before pat.data after rep.data ++ after)

/-! ## The regex literals of the source, transcribed constructor by constructor -/

/-- `\s` as a class node. -/
def wsC : RE := .cls false jsWs

/-- `\s*` (greedy). -/
def wsStar : RE := .star false wsC

/-- `[\s\S]`: every character (a negated empty class). -/
def anyC : RE := .cls true fun _ => false

/-- `h` under the `i` flag. -/
def hC : RE := .cls false fun c => c = 'h' || c = 'H'

/-- `[1-6]`. -/
def d16C : RE := .cls false fun c => '1' ≤ c && c ≤ '6'

/-- `/^\s*(#{1,6})\s*(.+?)\s*#*\s*$/gm` (ATX headings). -/
def reATX : RE :=
  .seq (.bol true) (.seq wsStar
    (.seq (.grp 1 (.seq (.chr '#') (reUpTo 5 (.chr '#'))))
      (.seq wsStar
        (.seq (.grp 2 (rePlus true .dot))
          (.seq wsStar (.seq (.star false (.chr '#')) (.seq wsStar (.eol true))))))))

/-- `/^\s*[\*\-\+]\s*(#{1,6})\s*(.+?)\s*$/gm` (bullet-prefixed headings). -/
def reAltHdr : RE :=
  .seq (.bol true) (.seq wsStar
    (.seq (.cls false fun c => c = '*' || c = '-' || c = '+')
      (.seq wsStar
        (.seq (.grp 1 (.seq (.chr '#') (reUpTo 5 (.chr '#'))))
          (.seq wsStar
            (.seq (.grp 2 (rePlus true .dot)) (.seq wsStar (.eol true))))))))

/-- `/^(.+)\n\s*=+\s*$/gm` (setext level-1 underline). -/
def reSetextEq : RE :=
  .seq (.bol true) (.seq (.grp 1 (rePlus false .dot))
    (.seq (.chr '\n') (.seq wsStar
      (.seq (rePlus false (.chr '=')) (.seq wsStar (.eol true))))))

/-- `/^(.+)\n\s*-+\s*$/gm` (setext level-2 underline). -/
def reSetextDash : RE :=
  .seq (.bol true) (.seq (.grp 1 (rePlus false .dot))
    (.seq (.chr '\n') (.seq wsStar
      (.seq (rePlus false (.chr '-')) (.seq wsStar (.eol true))))))

/-- `/""([^"]+)""/g` (doubled-straight-quote convenience rule). -/
def reDq : RE :=
  .seq (.chr '"') (.seq (.chr '"')
    (.seq (.grp 1 (rePlus false (.cls true fun c => c = '"')))
      (.seq (.chr '"') (.chr '"'))))

/-- `/(\*\*|__)([^\s][^\n]*?[^\s]|[^\s])(\1)/g` (bold). -/
def reBold : RE :=
  .seq (.grp 1 (.alt (reLit "**") (reLit "__")))
    (.seq (.grp 2 (.alt
        (.seq (.cls true jsWs)
          (.seq (.star true (.cls true fun c => c = '\n')) (.cls true jsWs)))
        (.cls true jsWs)))
      (.grp 3 (.bref 1)))

/-- `/(?<!\*)(\*)([^*\n]+)(\*)(?!\*)/g` (italics inside `**` bold, `*` family). -/
def reEmStarNoStar : RE :=
  .seq (.nlb fun c => c = '*')
    (.seq (.grp 1 (.chr '*'))
      (.seq (.grp 2 (rePlus false (.cls true fun c => c = '*' || c = '\n')))
        (.seq (.grp 3 (.chr '*')) (.nla (.chr '*')))))

/-- `/(?<!\w)(_)([^_\n]+)(_)(?!\w)/g` (italics inside `**` bold, `_` family). -/
def reEmUnderWord : RE :=
  .seq (.nlb jsWord)
    (.seq (.grp 1 (.chr '_'))
      (.seq (.grp 2 (rePlus false (.cls true fun c => c = '_' || c = '\n')))
        (.seq (.grp 3 (.chr '_')) (.nla (.cls false jsWord)))))

/-- `/(?<!\w)(\*)([^*\n]+)(\*)(?!\w)/g` (italics inside `__` bold, `*` family). -/
def reEmStarWord : RE :=
  .seq (.nlb jsWord)
    (.seq (.grp 1 (.chr '*'))
      (.seq (.grp 2 (rePlus false (.cls true fun c => c = '*' || c = '\n')))
        (.seq (.grp 3 (.chr '*')) (.nla (.cls false jsWord)))))

/-- `/(?<!_)(_)([^_\n]+)(_)(?!_)/g` (italics inside `__` bold, `_` family). -/
def reEmUnderNoUnder : RE :=
  .seq (.nlb fun c => c = '_')
    (.seq (.grp 1 (.chr '_'))
      (.seq (.grp 2 (rePlus false (.cls true fun c => c = '_' || c = '\n')))
        (.seq (.grp 3 (.chr '_')) (.nla (.chr '_')))))

/-- `/(?<!\w)(\*|_)([^*_\s][^*_]*[^*_\s]|\S)\1(?!\w)/g` (remaining italics). -/
def reItalic : RE :=
  .seq (.nlb jsWord)
    (.seq (.grp 1 (.alt (.chr '*') (.chr '_')))
      (.seq (.grp 2 (.alt
          (.seq (.cls true fun c => c = '*' || c = '_' || jsWs c)
            (.seq (.star false (.cls true fun c => c = '*' || c = '_'))
              (.cls true fun c => c = '*' || c = '_' || jsWs c)))
          (.cls true jsWs)))
        (.seq (.bref 1) (.nla (.cls false jsWord)))))

/-- `/~~([^~]+)~~/g` (strikethrough). -/
def reStrike : RE :=
  .seq (.chr '~') (.seq (.chr '~')
    (.seq (.grp 1 (rePlus false (.cls true fun c => c = '~')))
      (.seq (.chr '~') (.chr '~'))))

/-- `/^\s*>\s*(.+)$/gm` (blockquote lines). -/
def reBq : RE :=
  .seq (.bol true) (.seq wsStar
    (.seq (.chr '>') (.seq wsStar (.seq (.grp 1 (rePlus false .dot)) (.eol true)))))

/-- `/(<\/blockquote>\s*<blockquote>)/g` (blockquote merging). -/
def reBqMerge : RE :=
  .grp 1 (.seq (reLit "</blockquote>") (.seq wsStar (reLit "<blockquote>")))

/-- `[-*+]`. -/
def uoC : RE := .cls false fun c => c = '-' || c = '*' || c = '+'

/-- `[\.\)]`. -/
def dotParenC : RE := .cls false fun c => c = '.' || c = ')'

/-- `\d+[\.\)]`. -/
def numMk : RE := .seq (rePlus false (.cls false jsDigit)) dotParenC

/-- `\([0-9]+\)`. -/
def parenMk : RE := .seq (.chr '(') (.seq (rePlus false (.cls false jsDigit)) (.chr ')'))

/-- `[a-zA-Z][\.\)]`. -/
def alphaMk : RE := .seq (.cls false isAlpha) dotParenC

/-- `[ivxlcdm]` under the `i` flag (and likewise `[IVXLCDM]`). -/
def romanC : RE := .cls false fun c =>
  c = 'i' || c = 'v' || c = 'x' || c = 'l' || c = 'c' || c = 'd' || c = 'm' ||
  c = 'I' || c = 'V' || c = 'X' || c = 'L' || c = 'C' || c = 'D' || c = 'M'

/-- `[ivxlcdm]+[\.\)]` / `[IVXLCDM]+[\.\)]` under the `i` flag. -/
def romanMk : RE := .seq (rePlus false romanC) dotParenC

/-- The full marker alternation
`[-*+]|\d+[\.\)]|\([0-9]+\)|[a-zA-Z][\.\)]|[ivxlcdm]+[\.\)]|[IVXLCDM]+[\.\)]`
(under `i` the two Roman alternatives coincide). -/
def markerAlt : RE :=
  .alt uoC (.alt numMk (.alt parenMk (.alt alphaMk (.alt romanMk romanMk))))

/-- The list-item line regex of `processLists` (flags `i`, anchored, no `m`):
`/^(\s*)([-*+]|\d+[\.\)]|\([0-9]+\)|[a-zA-Z][\.\)]|[ivxlcdm]+[\.\)]|[IVXLCDM]+[\.\)])\s+(\[[ x]\]\s+)?(.*)$/i`. -/
def reListLine : RE :=
  .seq (.bol false) (.seq (.grp 1 wsStar)
    (.seq (.grp 2 markerAlt)
      (.seq (rePlus false wsC)
        (.seq (reOpt (.grp 3 (.seq (.chr '[')
            (.seq (.cls false fun c => c = ' ' || c = 'x' || c = 'X')
              (.seq (.chr ']') (rePlus false wsC))))))
          (.seq (.grp 4 (.star false .dot)) (.eol false))))))

/-- The pre-scan regex of `analyzeIndentationLevels`:
`/^(\s*)([-*+]|\d+[\.\)]|\([0-9]+\)|[a-zA-Z][\.\)]|[ivxlcdm]+[\.\)]|[IVXLCDM]+[\.\)])\s+/i`. -/
def reListScan : RE :=
  .seq (.bol false) (.seq (.grp 1 wsStar) (.seq (.grp 2 markerAlt) (rePlus false wsC)))

/-- The neighbour regex of `checkListContext` and the sequence verifiers
(no `i` flag, no Roman alternatives):
`/^(\s*)([-*+]|\d+[\.\)]|\([0-9]+\)|[a-zA-Z][\.\)])\s+(.*)$/`. -/
def reListCtx : RE :=
  .seq (.bol false) (.seq (.grp 1 wsStar)
    (.seq (.grp 2 (.alt uoC (.alt numMk (.alt parenMk alphaMk))))
      (.seq (rePlus false wsC) (.seq (.grp 3 (.star false .dot)) (.eol false)))))

/-- `/^[-*+]$/`. -/
def reUnordered : RE := .seq (.bol false) (.seq uoC (.eol false))

/-- `/^\d+[\.\)]$/`. -/
def reNumMarker : RE := .seq (.bol false) (.seq numMk (.eol false))

/-- `/^[a-zA-Z][\.\)]$/`. -/
def reLetterMarker : RE := .seq (.bol false) (.seq alphaMk (.eol false))

/-- `/^[a-zA-Z0-9][\.\)]$/`. -/
def reSingleMarker : RE :=
  .seq (.bol false) (.seq (.cls false fun c => isAlpha c || jsDigit c)
    (.seq dotParenC (.eol false)))

/-- The ordered-marker test of `processLists`:
`/^(\d+[\.\)]|\([0-9]+\)|[a-zA-Z][\.\)]|[ivxlcdm]+[\.\)]|[IVXLCDM]+[\.\)])$/i`. -/
def reOrderedMarker : RE :=
  .seq (.bol false)
    (.seq (.grp 1 (.alt numMk (.alt parenMk (.alt alphaMk (.alt romanMk romanMk)))))
      (.eol false))

/-- `/^[A-Z][a-z]*\s+[A-Z]/` (name shape "B. Spielberger"). -/
def reNameShape1 : RE :=
  .seq (.bol false) (.seq (.cls false isUpperAZ)
    (.seq (.star false (.cls false isLowerAZ))
      (.seq (rePlus false wsC) (.cls false isUpperAZ))))

/-- `/^[A-Z][a-z]*\.$/` (abbreviation shape "Dr."). -/
def reNameShape2 : RE :=
  .seq (.bol false) (.seq (.cls false isUpperAZ)
    (.seq (.star false (.cls false isLowerAZ)) (.seq (.chr '.') (.eol false))))

/-- `/^[A-Z]/`. -/
def reCapStart : RE := .seq (.bol false) (.cls false isUpperAZ)

/-- `/^[a-zA-Z]$/`. -/
def reAlphaSingle : RE := .seq (.bol false) (.seq (.cls false isAlpha) (.eol false))

/-- `/^\d+$/`. -/
def reNumStr : RE := .seq (.bol false) (.seq (rePlus false (.cls false jsDigit)) (.eol false))

/-- `c{3,}` (greedy). -/
def rep3 (c : Char) : RE := .seq (.chr c) (.seq (.chr c) (rePlus false (.chr c)))

/-- `/^\s*(-{3,}|\*{3,}|_{3,})\s*$/gm` (horizontal rules). -/
def reHr : RE :=
  .seq (.bol true) (.seq wsStar
    (.seq (.grp 1 (.alt (rep3 '-') (.alt (rep3 '*') (rep3 '_'))))
      (.seq wsStar (.eol true))))

/-- `/!\[([^\]]*)\]\(([^)]+)\)/g` (images). -/
def reImg : RE :=
  .seq (.chr '!') (.seq (.chr '[')
    (.seq (.grp 1 (.star false (.cls true fun c => c = ']')))
      (.seq (.chr ']') (.seq (.chr '(')
        (.seq (.grp 2 (rePlus false (.cls true fun c => c = ')'))) (.chr ')'))))))

/-- `/\[([^\]]+)\]\(([^)]+)\)/g` (links). -/
def reLink : RE :=
  .seq (.chr '[')
    (.seq (.grp 1 (rePlus false (.cls true fun c => c = ']')))
      (.seq (.chr ']') (.seq (.chr '(')
        (.seq (.grp 2 (rePlus false (.cls true fun c => c = ')'))) (.chr ')')))))

/-- `/(?<!["'>])\bhttps?:\/\/[^\s<>]+/g` (autolinks). -/
def reAuto : RE :=
  .seq (.nlb fun c => c = '"' || c = '\'' || c = '>')
    (.seq .wb (.seq (reLit "http")
      (.seq (reOpt (.chr 's')) (.seq (reLit "://")
        (rePlus false (.cls true fun c => jsWs c || c = '<' || c = '>'))))))

/-- `/\n\s*\n/` (the paragraph-block separator of `text.split`). -/
def reBlockSep : RE := .seq (.chr '\n') (.seq wsStar (.chr '\n'))

/-- `<\/h[1-6]>` under the `i` flag. -/
def hCloseRe : RE :=
  .seq (.chr '<') (.seq (.chr '/') (.seq hC (.seq d16C (.chr '>'))))

/-- `/^(\s*<h[1-6][^>]*>[\s\S]*?<\/h[1-6]>)\s*([\s\S]+)$/i`
(header followed by inline text inside the same block). -/
def reHdrWithText : RE :=
  .seq (.bol false)
    (.seq (.grp 1 (.seq wsStar (.seq (.chr '<')
        (.seq hC (.seq d16C (.seq (.star false (.cls true fun c => c = '>'))
          (.seq (.chr '>') (.seq (.star true anyC) hCloseRe))))))))
      (.seq wsStar (.seq (.grp 2 (rePlus false anyC)) (.eol false))))

/-- `/^<(h[1-6]|ul|ol|blockquote|pre|hr|div)/i` (block-level opener). -/
def reBlockStart : RE :=
  .seq (.bol false) (.seq (.chr '<')
    (.grp 1 (.alt (.seq hC d16C) (.alt (reLitI "ul") (.alt (reLitI "ol")
      (.alt (reLitI "blockquote") (.alt (reLitI "pre")
        (.alt (reLitI "hr") (reLitI "div")))))))))

/-- `/(<\/h[1-6]>|<\/ul>|<\/ol>|<\/blockquote>|<\/pre>|<hr>|<\/div>)$/i`
(block-level closer at the end). -/
def reBlockEnd : RE :=
  .seq (.grp 1 (.alt hCloseRe (.alt (reLitI "</ul>") (.alt (reLitI "</ol>")
    (.alt (reLitI "</blockquote>") (.alt (reLitI "</pre>")
      (.alt (reLitI "<hr>") (reLitI "</div>"))))))))
    (.eol false)

/-- `/<\/(h[1-6])>\s*<br\s*\/?>\s*/gi` (stray break after a heading). -/
def reHdrBr : RE :=
  .seq (.chr '<') (.seq (.chr '/')
    (.seq (.grp 1 (.seq hC d16C))
      (.seq (.chr '>') (.seq wsStar
        (.seq (reLitI "<br") (.seq wsStar
          (.seq (reOpt (.chr '/')) (.seq (.chr '>') wsStar))))))))

/-- `/<p>\s*<\/p>/g` (strictly empty paragraph). -/
def reEmptyP1 : RE := .seq (reLit "<p>") (.seq wsStar (reLit "</p>"))

/-- `/<p>(?:\s|&nbsp;|<br\s*\/?>)*<\/p>/gi` (effectively empty paragraph). -/
def reEmptyP2 : RE :=
  .seq (reLitI "<p>")
    (.seq (.star false (.alt wsC (.alt (reLitI "&nbsp;")
        (.seq (reLitI "<br") (.seq wsStar (.seq (reOpt (.chr '/')) (.chr '>')))))))
      (reLitI "</p>"))

/-- `ul|ol|li|\/ul|\/ol|\/li`. -/
def listTagAlt : RE :=
  .alt (reLit "ul") (.alt (reLit "ol") (.alt (reLit "li")
    (.alt (reLit "/ul") (.alt (reLit "/ol") (reLit "/li")))))

/-- `/<br>\s*<(ul|ol|li|\/ul|\/ol|\/li)>/g`. -/
def reBrTag : RE :=
  .seq (reLit "<br>") (.seq wsStar (.seq (.chr '<') (.seq (.grp 1 listTagAlt) (.chr '>'))))

/-- `/<(ul|ol|li|\/ul|\/ol|\/li)>\s*<br>/g`. -/
def reTagBr : RE :=
  .seq (.chr '<') (.seq (.grp 1 listTagAlt) (.seq (.chr '>') (.seq wsStar (reLit "<br>"))))

/-- `/\n\s*\n\s*\n/g`. -/
def reTripleNl : RE :=
  .seq (.chr '\n') (.seq wsStar (.seq (.chr '\n') (.seq wsStar (.chr '\n'))))

/-- `/>\s*\n\s*</g`. -/
def reTagGap : RE :=
  .seq (.chr '>') (.seq wsStar (.seq (.chr '\n') (.seq wsStar (.chr '<'))))

/-- `/\n/g` (used with replacement `'<br>'`). -/
def reNl : RE := .chr '\n'

/-! ## The passes of `convertMarkdownToHTML`, in pipeline order -/

/-- The three quote characters of the normalization regex. -/
def quoteChars : List Char := ['"', '\'', '`']

/-- `text.replace(/^["'`]([\s\S]*?)["'`]$/s, '$1')`.  The pattern is anchored
at both ends, with a single-character class at each end, so it matches
exactly when the text has length at least 2 and its first and last
characters are quote characters — NOT necessarily the same one — and the
captured `$1` is everything strictly in between (laziness is irrelevant:
the anchors fix the extent). -/
def stripQuotes (s : List Char) : List Char :=
  match s.head?, s.getLast? with
  | some a, some b =>
    if 2 ≤ s.length ∧ a ∈ quoteChars ∧ b ∈ quoteChars then (s.drop 1).dropLast
    else s
  | _, _ => s

/-- `text.replace(/\r\n/g, '\n')` (leftmost, non-overlapping). -/
def crlfToNl : List Char → List Char
  | [] => []
  | [a] => [a]
  | a :: b :: rest =>
    if a = '\r' ∧ b = '\n' then '\n' :: crlfToNl rest
    else a :: crlfToNl (b :: rest)

/-- `text.replace(/\r/g, '\n')`. -/
def crToNl (s : List Char) : List Char := s.map fun c => if c = '\r' then '\n' else c

/-- Trailing `[ \t]+` of one line. -/
def dropTrailingSpTab (l : List Char) : List Char :=
  (l.reverse.dropWhile fun c => c = ' ' || c = '\t').reverse

def joinNlChars : List (List Char) → List Char
  | [] => []
  | [l] => l
  | l :: ls => l ++ '\n' :: joinNlChars ls

/-- `text.replace(/[ \t]+$/gm, '')`: with the `m` flag, `$` sits before every
`'\n'` and at the end, so this strips trailing spaces/tabs on every line
(all `'\r'` are already gone at this point of the pipeline). -/
def stripTrailingWsLines (s : List Char) : List Char :=
  joinNlChars ((splitNlChars s).map dropTrailingSpTab)

/-- `normalizeContent` (quote stripping, then line-ending normalization,
then per-line trailing-whitespace removal, in source order). -/
def normalizeContent (t : String) : String :=
  String.mk (stripTrailingWsLines (crToNl (crlfToNl (stripQuotes t.data))))

/-- `escapeHtml` assigns `textContent` on a detached `div` and reads back
`innerHTML`; HTML text-node serialization escapes `&`, `<`, `>` and NBSP. -/
def escChar (c : Char) : List Char :=
  if c = '&' then "&amp;".data
  else if c = '<' then "&lt;".data
  else if c = '>' then "&gt;".data
  else if c = '\u00A0' then "&nbsp;".data
  else [c]

def escapeHtml (s : String) : String :=
  String.mk (s.data.foldr (fun c acc => escChar c ++ acc) [])

/-- Scanner for `text.replace(/```([\s\S]*?)```/g, ...)`: the leftmost match
opens at the first triple backtick that has a later triple backtick, and the
lazy body runs exactly to the NEXT one; scanning resumes after the closing
fence.  Accumulates the stored `<pre><code>` fragments in push order. -/
def protectFenced (s : List Char) : Nat → Nat → List String → List Char × List String
  | 0, pos, acc => (s.drop pos, acc)
  | fuel + 1, pos, acc =>
    match findSub s "```".data pos with
    | none => (s.drop pos, acc)
    | some st =>
      match findSub s "```".data (st + 3) with
      | none => (s.drop pos, acc)
      | some en =>
        let content := String.mk (slice s (st + 3) en)
        let ph := "__CODE_BLOCK_" ++ toString acc.length ++ "__"
        let (out, acc') := protectFenced s fuel (en + 3)
          (acc ++ ["<pre><code>" ++ escapeHtml content ++ "</code></pre>"])
        (slice s pos st ++ ph.data ++ out, acc')

/-- Scanner for `text.replace(/`([^`]+)`/g, ...)`: a backtick directly
followed by another backtick cannot open a span (the body needs one
character), so the engine retries from that second backtick. -/
def protectInline (s : List Char) : Nat → Nat → List String → List Char × List String
  | 0, pos, acc => (s.drop pos, acc)
  | fuel + 1, pos, acc =>
    match findSub s ['`'] pos with
    | none => (s.drop pos, acc)
    | some i =>
      match findSub s ['`'] (i + 1) with
      | none => (s.drop pos, acc)
      | some j =>
        if j = i + 1 then
          let (out, acc') := protectInline s fuel (i + 1) acc
          (slice s pos (i + 1) ++ out, acc')
        else
          let ph := "__INLINE_CODE_" ++ toString acc.length ++ "__"
          let (out, acc') := protectInline s fuel (j + 1)
            (acc ++ ["<code>" ++ escapeHtml (String.mk (slice s (i + 1) j)) ++ "</code>"])
          (slice s pos i ++ ph.data ++ out, acc')

/-- `protectCodeBlocks`: fences first, inline spans afterwards; returns the
rewritten text together with the `codeBlocks` and `inlineCode` stores. -/
def protectCodeBlocks (t : String) : String × List String × List String :=
  let fenced := protectFenced t.data (t.data.length + 1) 0 []
  let inl := protectInline fenced.1 (fenced.1.length + 1) 0 []
  (String.mk inl.1, fenced.2, inl.2)

/-- The shared heading replacer:
``return `<h${level}>${content.trim()}</h${level}>`;``. -/
def hdrRepl (s : List Char) (_st _en : Nat) (caps : Caps) : List Char :=
  let level := toString (capStr s caps 1).length
  ("<h" ++ level ++ ">" ++ jsTrim (capStr s caps 2) ++ "</h" ++ level ++ ">").data

/-- `processHeaders`. -/
def processHeaders (t : String) : String :=
  let t := jsReplaceAll t reATX hdrRepl
  let t := jsReplaceAll t reAltHdr hdrRepl
  let t := jsReplaceAll t reSetextEq fun s _ _ caps =>
    ("<h1>" ++ capStr s caps 1 ++ "</h1>").data
  jsReplaceAll t reSetextDash fun s _ _ caps =>
    ("<h2>" ++ capStr s caps 1 ++ "</h2>").data

/-- `'<em>$2</em>'`. -/
def emRepl (s : List Char) (_st _en : Nat) (caps : Caps) : List Char :=
  ("<em>" ++ capStr s caps 2 ++ "</em>").data

/-- The inner italics passes of the bold replacer, selected by the outer
delimiter. -/
def boldInner (delim content : String) : String :=
  if delim = "**" then
    jsReplaceAll (jsReplaceAll content reEmStarNoStar emRepl) reEmUnderWord emRepl
  else if delim = "__" then
    jsReplaceAll (jsReplaceAll content reEmStarWord emRepl) reEmUnderNoUnder emRepl
  else content

/-- `processTextFormatting`. -/
def processTextFormatting (t : String) : String :=
  let t := jsReplaceAll t reDq fun s _ _ caps => ("\"*" ++ capStr s caps 1 ++ "*\"").data
  let t := jsReplaceAll t reBold fun s _ _ caps =>
    ("<strong>" ++ boldInner (capStr s caps 1) (capStr s caps 2) ++ "</strong>").data
  let t := jsReplaceAll t reItalic emRepl
  jsReplaceAll t reStrike fun s _ _ caps => ("<del>" ++ capStr s caps 1 ++ "</del>").data

/-- `processBlockquotes`. -/
def processBlockquotes (t : String) : String :=
  let t := jsReplaceAll t reBq fun s _ _ caps =>
    ("<blockquote>" ++ capStr s caps 1 ++ "</blockquote>").data
  jsReplaceAll t reBqMerge fun _ _ _ _ => "<br>".data

/-- `processHorizontalRules`. -/
def processHorizontalRules (t : String) : String :=
  jsReplaceAll t reHr fun _ _ _ _ => "<hr>".data

/-- `processLinksAndImages` (images, then links, then autolinks). -/
def processLinksAndImages (t : String) : String :=
  let t := jsReplaceAll t reImg fun s _ _ caps =>
    ("<img src=\"" ++ capStr s caps 2 ++ "\" alt=\"" ++ capStr s caps 1 ++ "\">").data
  let t := jsReplaceAll t reLink fun s _ _ caps =>
    ("<a href=\"" ++ capStr s caps 2 ++ "\">" ++ capStr s caps 1 ++ "</a>").data
  jsReplaceAll t reAuto fun s st en _ =>
    ("<a href=\"" ++ String.mk (slice s st en) ++ "\">" ++ String.mk (slice s st en) ++ "</a>").data

/-! ## The list structuring engine -/

/-- An open list context of the stack (`{ type, level }` in the source).
The stack is a Lean list with the MOST RECENTLY pushed context at the head
(JS pushes/pops at the array's end). -/
structure ListCtx where
  type : String
  level : Nat
deriving DecidableEq

/-- `closeAllLists`: pop everything, emitting `</type>` in pop order
(innermost context first). -/
def closeAllLists (stack : List ListCtx) : List String :=
  stack.map fun c => "</" ++ c.type ++ ">"

/-- Phase 1 of `adjustListStack`: `while (listStack.length > targetLevel)`
pop and emit a closing tag. -/
def closeToLevel : List ListCtx → Nat → List ListCtx × List String
  | [], _ => ([], [])
  | c :: rest, tgt =>
    if rest.length + 1 > tgt then
      let next := closeToLevel rest tgt
      (next.1, ("</" ++ c.type ++ ">") :: next.2)
    else (c :: rest, [])

/-- Phase 2 of `adjustListStack`: `while (listStack.length < targetLevel)`
push and emit an opening tag; intermediate levels default to `ul`, the
final one takes the detected type.  The fuel is the target level, which
bounds the number of pushes. -/
def openToLevel (listType : String) (tgt : Nat) : Nat → List ListCtx → List ListCtx × List String
  | 0, stack => (stack, [])
  | fuel + 1, stack =>
    if stack.length < tgt then
      let nt := if stack.length = tgt - 1 then listType else "ul"
      let next := openToLevel listType tgt fuel (⟨nt, stack.length⟩ :: stack)
      (next.1, ("<" ++ nt ++ ">") :: next.2)
    else (stack, [])

/-- `adjustListStack`, returning the new stack and the emitted tags. -/
def adjustListStack (stack0 : List ListCtx) (targetLevel : Nat) (listType : String) :
    List ListCtx × List String :=
  let p1 := closeToLevel stack0 targetLevel
  let p2 := openToLevel listType targetLevel targetLevel p1.1
  let p3 :=
    if p2.1.length = targetLevel ∧ 0 < targetLevel then
      match p2.1 with
      | cur :: rest =>
        if cur.type ≠ listType then
          (ListCtx.mk listType (targetLevel - 1) :: rest,
           ["</" ++ cur.type ++ ">", "<" ++ listType ++ ">"])
        else (p2.1, [])
      | [] => (p2.1, [])
    else (p2.1, [])
  let p4 :=
    if p3.1.length = 0 then ([ListCtx.mk listType 0], ["<" ++ listType ++ ">"])
    else (p3.1, [])
  (p4.1, p1.2 ++ p2.2 ++ p3.2 ++ p4.2)

/-- The capture record of the per-line list regex. -/
structure LineMatch where
  indent : Nat
  marker : String
  checkbox : String
  content : String
deriving DecidableEq

/-- `line.match(...)` of `processLists`; the `checkbox` field is `""` when
group 3 did not participate (`listMatch[3] || ''`). -/
def matchListLine (line : String) : Option LineMatch :=
  match jsMatch line reListLine with
  | some (_, _, caps) =>
    some ⟨(capStr line.data caps 1).length, capStr line.data caps 2,
          capStr line.data caps 3, capStr line.data caps 4⟩
  | none => none

/-- The neighbour match used by `checkListContext` and the sequence
verifiers: `(indent width, marker)`. -/
def ctxLineMatch (line : String) : Option (Nat × String) :=
  match jsMatch line reListCtx with
  | some (_, _, caps) =>
    some ((capStr line.data caps 1).length, capStr line.data caps 2)
  | none => none

/-- `marker.replace(/[\.\)]$/, '')`: drop one trailing `.` or `)`. -/
def markerBase (m : String) : String :=
  match m.data.getLast? with
  | some c => if c = '.' || c = ')' then String.mk m.data.dropLast else m
  | none => m

/-- `areRelatedMarkers`. -/
def areRelatedMarkers (m1 m2 : String) : Bool :=
  (jsTest m1 reUnordered && jsTest m2 reUnordered) ||
  (jsTest m1 reNumMarker && jsTest m2 reNumMarker) ||
  (jsTest m1 reLetterMarker && jsTest m2 reLetterMarker)

/-- `checkListContext`: scan the ±3-line window (skipping the current line)
and return `(hasContext, nearbyItems)`.  The window's upper bound follows
`Math.min(lines.length - 1, i + 3)`; our uses always have a nonempty
`lines`, so the `Nat` truncation of `lines.length - 1` agrees with JS. -/
def checkListContext (lines : List String) (idx : Nat) (marker : String) (indent : Nat) :
    Bool × Nat :=
  let lo := idx - 3
  let hi := min (lines.length - 1) (idx + 3)
  ((List.range (hi + 1 - lo)).map (· + lo)).foldl
    (fun acc i =>
      if i = idx then acc
      else
        match ctxLineMatch (lines.getD i "") with
        | some (otherIndent, otherMarker) =>
          if ((otherIndent : Int) - (indent : Int)).natAbs ≤ 2 then
            (acc.1 || areRelatedMarkers marker otherMarker, acc.2 + 1)
          else acc
        | none => acc)
    (false, 0)

/-- The required letters `'a' ..< c` of `verifyAlphabeticalSequence`. -/
def lettersBelow (c : Char) : List Char :=
  (List.range (c.toNat - 'a'.toNat)).map fun k => Char.ofNat ('a'.toNat + k)

/-- One iteration of the backwards scan of `verifyAlphabeticalSequence`:
fold line `j` into the set of found letters. -/
def vAlphaStep (lines : List String) (indent : Nat) (required : List Char)
    (j : Nat) (found : List Char) : List Char :=
  match ctxLineMatch (lines.getD j "") with
  | some (lineIndent, lineMarker) =>
    if ((lineIndent : Int) - (indent : Int)).natAbs ≤ 2 then
      let lineChar := markerBase lineMarker
      if jsTest lineChar reAlphaSingle then
        let nc := Char.toLower (lineChar.data.headD ' ')
        if required.contains nc ∧ ¬ found.contains nc then nc :: found else found
      else found
    else found
  | none => found

/-- The backwards scan (`for i = currentIndex - 1; i >= 0; i--`) with the
completeness check after every line. -/
def vAlphaGo (lines : List String) (indent : Nat) (required : List Char) :
    Nat → List Char → Bool
  | 0, found => (vAlphaStep lines indent required 0 found).length = required.length
  | j + 1, found =>
    let found' := vAlphaStep lines indent required (j + 1) found
    if found'.length = required.length then true
    else vAlphaGo lines indent required j found'

/-- `verifyAlphabeticalSequence`. -/
def verifyAlphabeticalSequence (lines : List String) (idx : Nat) (letter : String)
    (indent : Nat) : Bool :=
  let cur := Char.toLower (letter.data.headD 'a')
  if cur = 'a' then true
  else
    match idx with
    | 0 => false
    | i + 1 => vAlphaGo lines indent (lettersBelow cur) i []

/-- One iteration of the backwards scan of `verifyNumericalSequence`. -/
def vNumStep (lines : List String) (indent : Nat) (required : List Nat)
    (j : Nat) (found : List Nat) : List Nat :=
  match ctxLineMatch (lines.getD j "") with
  | some (lineIndent, lineMarker) =>
    if ((lineIndent : Int) - (indent : Int)).natAbs ≤ 2 then
      let lineNumber := markerBase lineMarker
      if jsTest lineNumber reNumStr then
        let n := (lineNumber.toNat?).getD 0
        if required.contains n ∧ ¬ found.contains n then n :: found else found
      else found
    else found
  | none => found

def vNumGo (lines : List String) (indent : Nat) (required : List Nat) :
    Nat → List Nat → Bool
  | 0, found => (vNumStep lines indent required 0 found).length = required.length
  | j + 1, found =>
    let found' := vNumStep lines indent required (j + 1) found
    if found'.length = required.length then true
    else vNumGo lines indent required j found'

/-- `verifyNumericalSequence` (required numbers `1 ..< n`). -/
def verifyNumericalSequence (lines : List String) (idx : Nat) (n : Nat)
    (indent : Nat) : Bool :=
  if n = 1 then true
  else
    match idx with
    | 0 => false
    | i + 1 => vNumGo lines indent ((List.range (n - 1)).map (· + 1)) i []

/-- `hasSequentialMarkers`. -/
def hasSequentialMarkers (lines : List String) (idx : Nat) (marker : String)
    (indent : Nat) : Bool :=
  let baseChar := markerBase marker
  if jsTest baseChar reAlphaSingle then
    verifyAlphabeticalSequence lines idx baseChar indent
  else if jsTest baseChar reNumStr then
    verifyNumericalSequence lines idx ((baseChar.toNat?).getD 0) indent
  else false

/-- `isActualListItem`.  The marker always occurs in the line (the line was
matched by the list regex and only whitespace precedes the marker), so the
`indexOf` defaulting can never fire. -/
def isActualListItem (lines : List String) (idx : Nat) (marker : String)
    (indent : Nat) : Bool :=
  if jsTest marker reUnordered then true
  else
    let currentLine := lines.getD idx ""
    let content := jsTrim (String.mk (currentLine.data.drop
      (((findSub currentLine.data marker.data 0).getD currentLine.length) + marker.length)))
    if jsTest content reNameShape1 || jsTest content reNameShape2 then false
    else
      let ctx := checkListContext lines idx marker indent
      if ctx.1 then true
      else if jsTest marker reSingleMarker then
        if hasSequentialMarkers lines idx marker indent then true
        else if jsTest content reCapStart && (jsIncludes content " " || content.length < 20) then
          false
        else decide (2 ≤ ctx.2)
      else decide (2 ≤ ctx.2)

/-- One indent extraction of the `analyzeIndentationLevels` pre-scan. -/
def scanIndent (line : String) : Option Nat :=
  match jsMatch line reListScan with
  | some (_, _, caps) => some (capStr line.data caps 1).length
  | none => none

/-- The `sortedIndents.forEach((indent, index) => levelMap.set(indent, index))`
loop: an association list pairing each width with its rank. -/
def rankMap : List Nat → Nat → List (Nat × Nat)
  | [], _ => []
  | x :: xs, i => (x, i) :: rankMap xs (i + 1)

/-- `analyzeIndentationLevels`: the distinct indent widths of marker-shaped
lines, sorted ascending and ranked.  (The source counts occurrences in a
`Map`, but only the key set reaches the ranking.) -/
def analyzeIndentationLevels (lines : List String) : List (Nat × Nat) :=
  rankMap (List.insertionSort (· ≤ ·) (lines.filterMap scanIndent).dedup) 0

/-- `calculateNestingLevel`: rank of a known width, otherwise the nearest
smaller known width's rank plus a quarter of the overshoot. -/
def calculateNestingLevel (indent : Nat) (indentLevels : List (Nat × Nat)) : Nat :=
  match List.lookup indent indentLevels with
  | some l => l
  | none =>
    let cp := indentLevels.foldl
      (fun (acc : Nat × Nat) p => if p.1 ≤ indent ∧ acc.1 < p.1 then p else acc) (0, 0)
    if cp.1 < indent then cp.2 + (indent - cp.1) / 4 else cp.2

/-- The body of the `processLists` loop for one line: returns the new stack
and the strings pushed onto `result`. -/
def processLine (lines : List String) (indentLevels : List (Nat × Nat)) (idx : Nat)
    (line : String) (stack : List ListCtx) : List ListCtx × List String :=
  match matchListLine line with
  | some m =>
    if isActualListItem lines idx m.marker m.indent then
      let listType := if jsTest m.marker reOrderedMarker then "ol" else "ul"
      let level := calculateNestingLevel m.indent indentLevels
      let adj := adjustListStack stack level listType
      let formatted :=
        if m.checkbox ≠ "" then
          "<input type=\"checkbox\" " ++ (if jsIncludes m.checkbox "x" then "checked" else "") ++
            " disabled> " ++ m.content
        else m.content
      (adj.1, adj.2 ++ ["<li>" ++ formatted ++ "</li>"])
    else ([], closeAllLists stack ++ [line])
  | none =>
    if jsTrim line ≠ "" then ([], closeAllLists stack ++ [line])
    else (stack, [line])

/-- The main loop of `processLists` over all line indices. -/
def walkLines (lines : List String) (indentLevels : List (Nat × Nat)) :
    List ListCtx × List String :=
  (List.range lines.length).foldl
    (fun acc i =>
      let step := processLine lines indentLevels i (lines.getD i "") acc.1
      (step.1, acc.2 ++ step.2))
    ([], [])

/-- `processLists`. -/
def processLists (text : String) : String :=
  let lines := splitNl text
  let indentLevels := analyzeIndentationLevels lines
  let walked := walkLines lines indentLevels
  joinNl (walked.2 ++ closeAllLists walked.1)

/-! ## Restoration, paragraph assembly, final cleanup, entry point -/

/-- The restoration loops: for each stored fragment `i`, the FIRST
occurrence of the placeholder text is replaced (`String.replace` with two
string arguments). -/
def restoreLoop (pre : String) : String → List String → Nat → String
  | t, [], _ => t
  | t, f :: rest, i => restoreLoop pre (jsReplaceFirst t (pre ++ toString i ++ "__") f) rest (i + 1)

/-- `restoreCodeBlocks`: code blocks first, inline spans afterwards. -/
def restoreCodeBlocks (t : String) (codeBlocks inlineCode : List String) : String :=
  restoreLoop "__INLINE_CODE_" (restoreLoop "__CODE_BLOCK_" t codeBlocks 0) inlineCode 0

/-- `block.replace(/\n/g, '<br>')`. -/
def nlToBr (s : String) : String := jsReplaceAll s reNl fun _ _ _ _ => "<br>".data

/-- The body of the `processParagraphs` loop for one raw block: the list of
strings pushed onto `processedBlocks`. -/
def processBlock (block0 : String) : List String :=
  let block := jsTrim block0
  if block = "" then []
  else
    match jsMatch block reHdrWithText with
    | some (_, _, caps) =>
      let hdr := capStr block.data caps 1
      let after := jsTrim (capStr block.data caps 2)
      hdr :: (if after = "" then []
        else if jsTest after reBlockStart || jsTest after reBlockEnd then [after]
        else ["<p>" ++ nlToBr after ++ "</p>"])
    | none =>
      if jsTest block reBlockStart || jsTest block reBlockEnd then [block]
      else ["<p>" ++ nlToBr block ++ "</p>"]

/-- `processParagraphs`: split on blank-line boundaries, process each block,
join with single newlines. -/
def processParagraphs (text : String) : String :=
  joinNl ((jsSplitRe text reBlockSep).foldr (fun b acc => processBlock b ++ acc) [])

/-- `finalCleanup` (the seven regex rewrites, then trim every line and drop
the empty ones). -/
def finalCleanup (html : String) : String :=
  let h := jsReplaceAll html reHdrBr fun s _ _ caps => ("</" ++ capStr s caps 1 ++ ">").data
  let h := jsReplaceAll h reEmptyP1 fun _ _ _ _ => []
  let h := jsReplaceAll h reEmptyP2 fun _ _ _ _ => []
  let h := jsReplaceAll h reBrTag fun s _ _ caps => ("<" ++ capStr s caps 1 ++ ">").data
  let h := jsReplaceAll h reTagBr fun s _ _ caps => ("<" ++ capStr s caps 1 ++ ">").data
  let h := jsReplaceAll h reTripleNl fun _ _ _ _ => "\n\n".data
  let h := jsReplaceAll h reTagGap fun _ _ _ _ => "><".data
  joinNl (((splitNl h).map jsTrim).filter (· ≠ ""))

/-- The `try` body of `convertMarkdownToHTML`: the eleven passes in order. -/
def pipelineSteps (md : String) : String :=
  let html := normalizeContent md
  let prot := protectCodeBlocks html
  let html := processHeaders prot.1
  let html := processTextFormatting html
  let html := processBlockquotes html
  let html := processLists html
  let html := processHorizontalRules html
  let html := processLinksAndImages html
  let html := restoreCodeBlocks html prot.2.1 prot.2.2
  let html := processParagraphs html
  finalCleanup html

/-- The `try/catch` shape of `convertMarkdownToHTML`: `run` is the pipeline
body, which in JS may throw (`none`); on failure the raw input is escaped
into the fallback shape. -/
def convertCaught (run : String → Option String) (markdown : String) : String :=
  match run markdown with
  | some html => html
  | none =>
    "<p>Error rendering content. Raw content:</p><pre>" ++ escapeHtml markdown ++ "</pre>"

/-- `convertMarkdownToHTML`: in this embedding every pass is total, so the
pipeline body never fails. -/
def convertMarkdownToHTML (markdown : String) : String :=
  convertCaught (fun md => some (pipelineSteps md)) markdown

/-! ## Predicates for the general theorems -/

/-- Every character of the string is JS whitespace. -/
def WsOnly (s : List Char) : Prop := ∀ c ∈ s, jsWs c = true

/-- The regex can match at no position of `s`, whatever the continuation:
the shape of every failure lemma below. -/
def NeverMatches (s : List Char) (r : RE) : Prop :=
  ∀ (fuel pos : Nat) (caps : Caps) (k : Cont), mtch fuel s r pos caps k = none

/-! ## Generic matcher lemmas -/

theorem mtch_none_of_k_none (fuel : Nat) :
    ∀ (s : List Char) (r : RE) (pos : Nat) (caps : Caps) (k : Cont),
      (∀ p c, k p c = none) → mtch fuel s r pos caps k = none := by
  induction fuel with
  | zero => intro s r pos caps k _; rfl
  | succ n ih =>
    intro s r pos caps k hk
    cases r with
    | eps => exact hk pos caps
    | chr c =>
      show (match s.get? pos with
        | some c' => if c' = c then k (pos + 1) caps else none
        | none => none) = none
      cases s.get? pos with
      | none => rfl
      | some c' => by_cases h : c' = c <;> simp [h, hk]
    | cls neg f =>
      show (match s.get? pos with
        | some c' => if f c' ≠ neg then k (pos + 1) caps else none
        | none => none) = none
      cases s.get? pos with
      | none => rfl
      | some c' => by_cases h : f c' ≠ neg <;> simp [h, hk]
    | dot =>
      show (match s.get? pos with
        | some c' => if c' ≠ '\n' then k (pos + 1) caps else none
        | none => none) = none
      cases s.get? pos with
      | none => rfl
      | some c' => by_cases h : c' ≠ '\n' <;> simp [h, hk]
    | seq a b =>
      exact ih s a pos caps _ fun p c => ih s b p c k hk
    | alt a b =>
      show (mtch n s a pos caps k).orElse (fun _ => mtch n s b pos caps k) = none
      rw [ih s a pos caps k hk, ih s b pos caps k hk]
      rfl
    | star lz a =>
      cases lz with
      | true =>
        show (k pos caps).orElse _ = none
        rw [hk pos caps, ih s a pos caps _ fun p c => ?_]
        · rfl
        · by_cases hp : p = pos
          · simp [hp]
          · simp only [hp, if_false]
            exact ih s (.star true a) p c k hk
      | false =>
        show (mtch n s a pos caps _).orElse _ = none
        rw [ih s a pos caps _ fun p c => ?_, hk pos caps]
        · rfl
        · by_cases hp : p = pos
          · simp [hp]
          · simp only [hp, if_false]
            exact ih s (.star false a) p c k hk
    | grp i a =>
      exact ih s a pos caps _ fun p c => hk p _
    | bref i =>
      show (match capLookup i caps with
        | none => k pos caps
        | some (b, e) => if sliceAt s b e pos then k (pos + (e - b)) caps else none) = none
      cases capLookup i caps with
      | none => exact hk pos caps
      | some be =>
        obtain ⟨b, e⟩ := be
        by_cases h : sliceAt s b e pos <;> simp [h, hk]
    | bol m =>
      show (if pos = 0 then k pos caps else _) = none
      by_cases h0 : pos = 0
      · simp [h0, hk]
      · simp only [h0, if_false]
        by_cases hm : m
        · simp only [hm, if_true]
          cases s.get? (pos - 1) with
          | none => rfl
          | some c' => by_cases h : c' = '\n' <;> simp [h, hk]
        · simp [hm]
    | eol m =>
      show (if pos = s.length then k pos caps else _) = none
      by_cases h0 : pos = s.length
      · simp [h0, hk]
      · simp only [h0, if_false]
        by_cases hm : m
        · simp only [hm, if_true]
          cases s.get? pos with
          | none => rfl
          | some c' => by_cases h : c' = '\n' <;> simp [h, hk]
        · simp [hm]
    | nlb f =>
      show (if pos = 0 then k pos caps else _) = none
      by_cases h0 : pos = 0
      · simp [h0, hk]
      · simp only [h0, if_false]
        cases s.get? (pos - 1) with
        | none => exact hk pos caps
        | some c' => by_cases h : f c' <;> simp [h, hk]
    | nla a =>
      show (match mtch n s a pos caps (fun p c => some (p, c)) with
        | some _ => none
        | none => k pos caps) = none
      cases mtch n s a pos caps (fun p c => some (p, c)) with
      | none => exact hk pos caps
      | some x => rfl
    | wb =>
      show (if atWb s pos then k pos caps else none) = none
      by_cases h : atWb s pos <;> simp [h, hk]

theorem nm_seq_left {s : List Char} {a : RE} (ha : NeverMatches s a) (b : RE) :
    NeverMatches s (.seq a b) := by
  intro fuel pos caps k
  cases fuel with
  | zero => rfl
  | succ n => exact ha n pos caps _

theorem nm_seq_right {s : List Char} (a : RE) {b : RE} (hb : NeverMatches s b) :
    NeverMatches s (.seq a b) := by
  intro fuel pos caps k
  cases fuel with
  | zero => rfl
  | succ n => exact mtch_none_of_k_none n s a pos caps _ fun p c => hb n p c k

theorem nm_alt {s : List Char} {a b : RE} (ha : NeverMatches s a) (hb : NeverMatches s b) :
    NeverMatches s (.alt a b) := by
  intro fuel pos caps k
  cases fuel with
  | zero => rfl
  | succ n =>
    show (mtch n s a pos caps k).orElse (fun _ => mtch n s b pos caps k) = none
    rw [ha n pos caps k, hb n pos caps k]
    rfl

theorem nm_grp {s : List Char} {a : RE} (ha : NeverMatches s a) (i : Nat) :
    NeverMatches s (.grp i a) := by
  intro fuel pos caps k
  cases fuel with
  | zero => rfl
  | succ n => exact ha n pos caps _

theorem mem_of_get?_eq_some {s : List Char} {pos : Nat} {c : Char}
    (h : s.get? pos = some c) : c ∈ s :=
  List.get?_mem h

theorem nm_chr {s : List Char} {c : Char} (h : c ∉ s) : NeverMatches s (.chr c) := by
  intro fuel pos caps k
  cases fuel with
  | zero => rfl
  | succ n =>
    show (match s.get? pos with
      | some c' => if c' = c then k (pos + 1) caps else none
      | none => none) = none
    cases hg : s.get? pos with
    | none => rfl
    | some c' =>
      have : c' ≠ c := fun e => h (e ▸ mem_of_get?_eq_some hg)
      simp [this]

theorem nm_cls {s : List Char} {neg : Bool} {f : Char → Bool}
    (h : ∀ c ∈ s, f c = neg) : NeverMatches s (.cls neg f) := by
  intro fuel pos caps k
  cases fuel with
  | zero => rfl
  | succ n =>
    show (match s.get? pos with
      | some c' => if f c' ≠ neg then k (pos + 1) caps else none
      | none => none) = none
    cases hg : s.get? pos with
    | none => rfl
    | some c' => simp [h c' (mem_of_get?_eq_some hg)]

theorem matchAt_none_of_nm {s : List Char} {r : RE} (h : NeverMatches s r) (pos : Nat) :
    matchAt s r pos = none := h bigFuel pos [] _

theorem searchAux_none_of_nm {s : List Char} {r : RE} (h : NeverMatches s r) :
    ∀ (fuel pos : Nat), searchAux s r fuel pos = none := by
  intro fuel
  induction fuel with
  | zero => intro pos; rfl
  | succ n ih =>
    intro pos
    show (match matchAt s r pos with
      | some (e, caps) => some (pos, e, caps)
      | none => if pos < s.length then searchAux s r n (pos + 1) else none) = none
    rw [matchAt_none_of_nm h]
    by_cases hp : pos < s.length <;> simp [hp, ih]

theorem searchFrom_none_of_nm {s : List Char} {r : RE} (h : NeverMatches s r) (pos : Nat) :
    searchFrom s r pos = none := searchAux_none_of_nm h _ _

theorem string_mk_data (s : String) : String.mk s.data = s := rfl

theorem jsReplaceAll_of_nm {t : String} {r : RE} (h : NeverMatches t.data r)
    (f : List Char → Nat → Nat → Caps → List Char) : jsReplaceAll t r f = t := by
  show String.mk (replaceAllAux t.data r f (t.length + 1) 0) = t
  have : replaceAllAux t.data r f (t.length + 1) 0 = t.data.drop 0 := by
    cases hL : t.length + 1 with
    | zero => exact absurd hL (Nat.succ_ne_zero _)
    | succ n =>
      show (match searchFrom t.data r 0 with
        | none => t.data.drop 0
        | some (st, en, caps) => _) = t.data.drop 0
      rw [searchFrom_none_of_nm h]
  rw [this, List.drop_zero, string_mk_data]

theorem jsMatch_none_of_nm {t : String} {r : RE} (h : NeverMatches t.data r) :
    jsMatch t r = none := searchFrom_none_of_nm h 0

theorem jsTest_false_of_nm {t : String} {r : RE} (h : NeverMatches t.data r) :
    jsTest t r = false := by
  show (jsMatch t r).isSome = false
  rw [jsMatch_none_of_nm h]
  rfl

/-! ## Whitespace is disjoint from every class the patterns require -/

theorem jsWs_false_of_printable {c : Char} (h1 : '!' ≤ c) (h2 : c ≤ '~') :
    jsWs c = false := by
  have ne : ∀ d : Char, ¬ ('!' ≤ d → c ≤ '~' → False) → True := fun _ _ => trivial
  simp only [jsWs, Bool.or_eq_false_iff, decide_eq_false_iff_not, Bool.and_eq_false_iff,
    decide_eq_false_iff_not]
  refine ⟨⟨⟨⟨⟨⟨⟨⟨⟨⟨⟨⟨⟨⟨?_, ?_⟩, ?_⟩, ?_⟩, ?_⟩, ?_⟩, ?_⟩, ?_⟩, ?_⟩, ?_⟩, ?_⟩, ?_⟩, ?_⟩, ?_⟩, ?_⟩
  all_goals first
    | exact fun e => absurd (e ▸ h1) (by decide)
    | exact fun e => absurd (e ▸ h2) (by decide)
    | exact Or.inl fun hle => absurd (le_trans hle h2) (by decide)

theorem ws_not_digit {c : Char} (h : jsWs c = true) : jsDigit c = false := by
  cases hd : jsDigit c with
  | false => rfl
  | true =>
    simp only [jsDigit, Bool.and_eq_true, decide_eq_true_eq] at hd
    rw [jsWs_false_of_printable (le_trans (by decide) hd.1) (le_trans hd.2 (by decide))] at h
    cases h

theorem ws_not_lower {c : Char} (h : jsWs c = true) : isLowerAZ c = false := by
  cases hd : isLowerAZ c with
  | false => rfl
  | true =>
    simp only [isLowerAZ, Bool.and_eq_true, decide_eq_true_eq] at hd
    rw [jsWs_false_of_printable (le_trans (by decide) hd.1) (le_trans hd.2 (by decide))] at h
    cases h

theorem ws_not_upper {c : Char} (h : jsWs c = true) : isUpperAZ c = false := by
  cases hd : isUpperAZ c with
  | false => rfl
  | true =>
    simp only [isUpperAZ, Bool.and_eq_true, decide_eq_true_eq] at hd
    rw [jsWs_false_of_printable (le_trans (by decide) hd.1) (le_trans hd.2 (by decide))] at h
    cases h

theorem ws_not_alpha {c : Char} (h : jsWs c = true) : isAlpha c = false := by
  simp only [isAlpha, Bool.or_eq_false_iff]
  exact ⟨ws_not_lower h, ws_not_upper h⟩

theorem ws_ne {c c0 : Char} (h : jsWs c = true) (h0 : jsWs c0 = false) : c ≠ c0 :=
  fun e => by rw [e, h0] at h; cases h

/-- A whitespace-only string contains no character of false `jsWs`. -/
theorem not_mem_of_wsOnly {s : List Char} (hs : WsOnly s) {c0 : Char}
    (h0 : jsWs c0 = false) : c0 ∉ s :=
  fun hm => by rw [hs c0 hm] at h0; cases h0

theorem nm_chr_ws {s : List Char} (hs : WsOnly s) {c0 : Char} (h0 : jsWs c0 = false) :
    NeverMatches s (.chr c0) := nm_chr (not_mem_of_wsOnly hs h0)

/-! ## The patterns fail on whitespace-only strings -/

theorem nm_uoC_ws {s : List Char} (hs : WsOnly s) : NeverMatches s uoC := by
  refine nm_cls fun c hc => ?_
  have hw := hs c hc
  simp only [Bool.or_eq_false_iff, decide_eq_false_iff_not]
  exact ⟨⟨ws_ne hw (by decide), ws_ne hw (by decide)⟩, ws_ne hw (by decide)⟩

theorem nm_digitC_ws {s : List Char} (hs : WsOnly s) :
    NeverMatches s (.cls false jsDigit) :=
  nm_cls fun c hc => ws_not_digit (hs c hc)

theorem nm_alphaC_ws {s : List Char} (hs : WsOnly s) :
    NeverMatches s (.cls false isAlpha) :=
  nm_cls fun c hc => ws_not_alpha (hs c hc)

theorem nm_romanC_ws {s : List Char} (hs : WsOnly s) : NeverMatches s romanC := by
  refine nm_cls fun c hc => ?_
  have hw := hs c hc
  simp only [Bool.or_eq_false_iff, decide_eq_false_iff_not]
  refine ⟨⟨⟨⟨⟨⟨⟨⟨⟨⟨⟨⟨⟨?_, ?_⟩, ?_⟩, ?_⟩, ?_⟩, ?_⟩, ?_⟩, ?_⟩, ?_⟩, ?_⟩, ?_⟩, ?_⟩, ?_⟩, ?_⟩
  all_goals exact ws_ne hw (by decide)

theorem nm_markerAlt_ws {s : List Char} (hs : WsOnly s) : NeverMatches s markerAlt := by
  have hnum : NeverMatches s numMk := nm_seq_left (nm_seq_left (nm_digitC_ws hs) _) _
  have hparen : NeverMatches s parenMk := nm_seq_left (nm_chr_ws hs (by decide)) _
  have halpha : NeverMatches s alphaMk := nm_seq_left (nm_alphaC_ws hs) _
  have hroman : NeverMatches s romanMk := nm_seq_left (nm_seq_left (nm_romanC_ws hs) _) _
  exact nm_alt (nm_uoC_ws hs)
    (nm_alt hnum (nm_alt hparen (nm_alt halpha (nm_alt hroman hroman))))

theorem nm_reListLine_ws {s : List Char} (hs : WsOnly s) : NeverMatches s reListLine :=
  nm_seq_right _ (nm_seq_right _ (nm_seq_left (nm_grp (nm_markerAlt_ws hs) 2) _))

theorem nm_reListScan_ws {s : List Char} (hs : WsOnly s) : NeverMatches s reListScan :=
  nm_seq_right _ (nm_seq_right _ (nm_seq_left (nm_grp (nm_markerAlt_ws hs) 2) _))

theorem nm_reATX_ws {s : List Char} (hs : WsOnly s) : NeverMatches s reATX :=
  nm_seq_right _ (nm_seq_right _
    (nm_seq_left (nm_grp (nm_seq_left (nm_chr_ws hs (by decide)) _) 1) _))

theorem nm_reAltHdr_ws {s : List Char} (hs : WsOnly s) : NeverMatches s reAltHdr := by
  have hcls : NeverMatches s (.cls false fun c => c = '*' || c = '-' || c = '+') := by
    refine nm_cls fun c hc => ?_
    have hw := hs c hc
    simp only [Bool.or_eq_false_iff, decide_eq_false_iff_not]
    exact ⟨⟨ws_ne hw (by decide), ws_ne hw (by decide)⟩, ws_ne hw (by decide)⟩
  exact nm_seq_right _ (nm_seq_right _ (nm_seq_left hcls _))

theorem nm_reSetextEq_ws {s : List Char} (hs : WsOnly s) : NeverMatches s reSetextEq :=
  nm_seq_right _ (nm_seq_right _ (nm_seq_right _
    (nm_seq_right _ (nm_seq_left (nm_seq_left (nm_chr_ws hs (by decide)) _) _))))

theorem nm_reSetextDash_ws {s : List Char} (hs : WsOnly s) : NeverMatches s reSetextDash :=
  nm_seq_right _ (nm_seq_right _ (nm_seq_right _
    (nm_seq_right _ (nm_seq_left (nm_seq_left (nm_chr_ws hs (by decide)) _) _))))

theorem nm_reDq_ws {s : List Char} (hs : WsOnly s) : NeverMatches s reDq :=
  nm_seq_left (nm_chr_ws hs (by decide)) _

theorem nm_reBold_ws {s : List Char} (hs : WsOnly s) : NeverMatches s reBold := by
  have h1 : NeverMatches s (reLit "**") := nm_seq_left (nm_chr_ws hs (by decide)) _
  have h2 : NeverMatches s (reLit "__") := nm_seq_left (nm_chr_ws hs (by decide)) _
  exact nm_seq_left (nm_grp (nm_alt h1 h2) 1) _

theorem nm_reItalic_ws {s : List Char} (hs : WsOnly s) : NeverMatches s reItalic :=
  nm_seq_right _ (nm_seq_left
    (nm_grp (nm_alt (nm_chr_ws hs (by decide)) (nm_chr_ws hs (by decide))) 1) _)

theorem nm_reStrike_ws {s : List Char} (hs : WsOnly s) : NeverMatches s reStrike :=
  nm_seq_left (nm_chr_ws hs (by decide)) _

theorem nm_reBq_ws {s : List Char} (hs : WsOnly s) : NeverMatches s reBq :=
  nm_seq_right _ (nm_seq_right _ (nm_seq_left (nm_chr_ws hs (by decide)) _))

theorem nm_reBqMerge_ws {s : List Char} (hs : WsOnly s) : NeverMatches s reBqMerge :=
  nm_grp (nm_seq_left (nm_seq_left (nm_chr_ws hs (by decide)) _) _) 1

theorem nm_reHr_ws {s : List Char} (hs : WsOnly s) : NeverMatches s reHr := by
  have h1 : NeverMatches s (rep3 '-') := nm_seq_left (nm_chr_ws hs (by decide)) _
  have h2 : NeverMatches s (rep3 '*') := nm_seq_left (nm_chr_ws hs (by decide)) _
  have h3 : NeverMatches s (rep3 '_') := nm_seq_left (nm_chr_ws hs (by decide)) _
  exact nm_seq_right _ (nm_seq_right _ (nm_seq_left (nm_grp (nm_alt h1 (nm_alt h2 h3)) 1) _))

theorem nm_reImg_ws {s : List Char} (hs : WsOnly s) : NeverMatches s reImg :=
  nm_seq_left (nm_chr_ws hs (by decide)) _

theorem nm_reLink_ws {s : List Char} (hs : WsOnly s) : NeverMatches s reLink :=
  nm_seq_left (nm_chr_ws hs (by decide)) _

theorem nm_reAuto_ws {s : List Char} (hs : WsOnly s) : NeverMatches s reAuto :=
  nm_seq_right _ (nm_seq_right _
    (nm_seq_left (nm_seq_left (nm_chr_ws hs (by decide)) _) _))

/-! ## Whitespace-only strings through the string helpers -/

theorem jsTrimList_eq_nil_iff (s : List Char) : jsTrimList s = [] ↔ WsOnly s := by
  constructor
  · intro h c hc
    unfold jsTrimList at h
    rw [List.reverse_eq_nil_iff, List.dropWhile_eq_nil_iff] at h
    have hdrop : ∀ x ∈ s.dropWhile jsWs, jsWs x = true := fun x hx =>
      h x (List.mem_reverse.mpr hx)
    have := List.takeWhile_append_dropWhile (p := jsWs) (l := s)
    rw [← this] at hc
    rcases List.mem_append.mp hc with h1 | h2
    · exact List.mem_takeWhile_imp h1
    · exact hdrop _ h2
  · intro h
    unfold jsTrimList
    have h1 : s.dropWhile jsWs = [] := List.dropWhile_eq_nil_iff.mpr h
    rw [h1]
    rfl

theorem jsTrim_eq_empty_iff (t : String) : jsTrim t = "" ↔ WsOnly t.data := by
  rw [← jsTrimList_eq_nil_iff]
  constructor
  · intro h
    exact congrArg String.data h
  · intro h
    show String.mk (jsTrimList t.data) = ""
    rw [h]

theorem splitNlChars_ne_nil (l : List Char) : splitNlChars l ≠ [] := by
  cases l with
  | nil => simp [splitNlChars]
  | cons c rest =>
    simp only [splitNlChars]
    by_cases h : c = '\n' <;> simp [h]

theorem joinNlChars_cons_cons (l t : List Char) (ts : List (List Char)) :
    joinNlChars (l :: t :: ts) = l ++ '\n' :: joinNlChars (t :: ts) := rfl

theorem joinNlChars_splitNlChars (l : List Char) : joinNlChars (splitNlChars l) = l := by
  induction l with
  | nil => rfl
  | cons c rest ih =>
    simp only [splitNlChars]
    obtain ⟨t, ts, hts⟩ : ∃ t ts, splitNlChars rest = t :: ts := by
      cases h : splitNlChars rest with
      | nil => exact absurd h (splitNlChars_ne_nil rest)
      | cons t ts => exact ⟨t, ts, rfl⟩
    by_cases h : c = '\n'
    · subst h
      rw [if_pos rfl, hts, joinNlChars_cons_cons, ← hts, ih]
      rfl
    · rw [if_neg h, hts]
      cases ts with
      | nil =>
        show c :: t = c :: rest
        have : joinNlChars (splitNlChars rest) = t := by rw [hts]; rfl
        rw [ih] at this
        rw [this]
      | cons u us =>
        show joinNlChars ((c :: t) :: u :: us) = c :: rest
        rw [joinNlChars_cons_cons]
        have : joinNlChars (splitNlChars rest) = rest := ih
        rw [hts, joinNlChars_cons_cons] at this
        show (c :: t) ++ '\n' :: joinNlChars (u :: us) = c :: rest
        rw [← this]
        rfl

theorem string_mk_append (a b : List Char) : String.mk a ++ String.mk b = String.mk (a ++ b) := rfl

theorem joinNl_map_mk (ls : List (List Char)) : joinNl (ls.map String.mk) = String.mk (joinNlChars ls) := by
  induction ls with
  | nil => rfl
  | cons l tail ih =>
    cases tail with
    | nil => rfl
    | cons t ts =>
      show String.mk l ++ "\n" ++ joinNl ((t :: ts).map String.mk) =
        String.mk (joinNlChars (l :: t :: ts))
      rw [ih]
      show String.mk (l ++ ['\n'] ++ joinNlChars (t :: ts)) = _
      rw [joinNlChars_cons_cons, List.append_assoc]
      rfl

theorem joinNl_splitNl (t : String) : joinNl (splitNl t) = t := by
  show joinNl ((splitNlChars t.data).map String.mk) = t
  rw [joinNl_map_mk, joinNlChars_splitNlChars, string_mk_data]

theorem mem_splitNlChars {l' : List Char} {s : List Char}
    (h : l' ∈ splitNlChars s) : ∀ c ∈ l', c ∈ s := by
  induction s generalizing l' with
  | nil =>
    intro c hc
    simp only [splitNlChars, List.mem_singleton] at h
    subst h
    cases hc
  | cons a rest ih =>
    intro c hc
    simp only [splitNlChars] at h
    obtain ⟨t, ts, hts⟩ : ∃ t ts, splitNlChars rest = t :: ts := by
      cases hx : splitNlChars rest with
      | nil => exact absurd hx (splitNlChars_ne_nil rest)
      | cons t ts => exact ⟨t, ts, rfl⟩
    by_cases ha : a = '\n'
    · rw [if_pos ha] at h
      rcases List.mem_cons.mp h with h1 | h1
      · subst h1; cases hc
      · exact List.mem_cons_of_mem a (ih h1 c hc)
    · rw [if_neg ha, hts] at h
      rcases List.mem_cons.mp h with h1 | h1
      · subst h1
        rcases List.mem_cons.mp hc with h2 | h2
        · exact h2 ▸ List.mem_cons_self a rest
        · have : t ∈ splitNlChars rest := by rw [hts]; exact List.mem_cons_self t ts
          exact List.mem_cons_of_mem a (ih this c h2)
      · have : l' ∈ splitNlChars rest := by
          rw [hts]; exact List.mem_cons_of_mem t h1
        exact List.mem_cons_of_mem a (ih this c hc)

theorem mem_joinNlChars {c : Char} {ls : List (List Char)}
    (h : c ∈ joinNlChars ls) : (∃ l ∈ ls, c ∈ l) ∨ c = '\n' := by
  induction ls with
  | nil => cases h
  | cons l tail ih =>
    cases tail with
    | nil => exact Or.inl ⟨l, List.mem_cons_self l [], h⟩
    | cons t ts =>
      rw [joinNlChars_cons_cons] at h
      rcases List.mem_append.mp h with h1 | h1
      · exact Or.inl ⟨l, List.mem_cons_self l _, h1⟩
      · rcases List.mem_cons.mp h1 with h2 | h2
        · exact Or.inr h2
        · rcases ih h2 with ⟨l', hl', hcl'⟩ | h3
          · exact Or.inl ⟨l', List.mem_cons_of_mem l hl', hcl'⟩
          · exact Or.inr h3

/-! ## Whitespace-only strings through the passes -/

theorem quote_not_ws {a : Char} (ha : a ∈ quoteChars) : jsWs a = false := by
  rcases List.mem_cons.mp ha with h | h
  · subst h; decide
  rcases List.mem_cons.mp h with h | h
  · subst h; decide
  rcases List.mem_cons.mp h with h | h
  · subst h; decide
  cases h

theorem stripQuotes_ws {s : List Char} (hs : WsOnly s) : stripQuotes s = s := by
  cases s with
  | nil => rfl
  | cons a rest =>
    show (match (a :: rest).head?, (a :: rest).getLast? with
      | some x, some b =>
        if 2 ≤ (a :: rest).length ∧ x ∈ quoteChars ∧ b ∈ quoteChars then
          ((a :: rest).drop 1).dropLast
        else a :: rest
      | _, _ => a :: rest) = a :: rest
    have hhead : (a :: rest).head? = some a := rfl
    cases hlast : (a :: rest).getLast? with
    | none => rfl
    | some b =>
      have hna : a ∉ quoteChars := fun hq => by
        have := hs a (List.mem_cons_self a rest)
        rw [quote_not_ws hq] at this
        cases this
      simp only [hhead]
      rw [if_neg fun hcond => hna hcond.2.1]

theorem crlfToNl_ws : ∀ (n : Nat) (s : List Char), s.length ≤ n → WsOnly s →
    WsOnly (crlfToNl s) := by
  intro n
  induction n with
  | zero =>
    intro s hlen hs
    rw [List.eq_nil_of_length_eq_zero (Nat.le_zero.mp hlen)]
    intro c hc
    cases hc
  | succ m ih =>
    intro s hlen hs
    match s with
    | [] => intro c hc; cases hc
    | [a] => exact hs
    | a :: b :: rest =>
      by_cases h : a = '\r' ∧ b = '\n'
      · rw [show crlfToNl (a :: b :: rest) = '\n' :: crlfToNl rest from by
          simp [crlfToNl, h]]
        intro c hc
        rcases List.mem_cons.mp hc with h1 | h1
        · rw [h1]; decide
        · refine ih rest (by simp at hlen ⊢; omega) (fun c' hc' => hs c' ?_) c h1
          exact List.mem_cons_of_mem _ (List.mem_cons_of_mem _ hc')
      · rw [show crlfToNl (a :: b :: rest) = a :: crlfToNl (b :: rest) from by
          simp [crlfToNl, h]]
        intro c hc
        rcases List.mem_cons.mp hc with h1 | h1
        · rw [h1]; exact hs a (List.mem_cons_self _ _)
        · refine ih (b :: rest) (by simp at hlen ⊢; omega) (fun c' hc' => hs c' ?_) c h1
          exact List.mem_cons_of_mem _ hc'

theorem crToNl_ws {s : List Char} (hs : WsOnly s) : WsOnly (crToNl s) := by
  intro c hc
  rcases List.mem_map.mp hc with ⟨c0, hc0, hmap⟩
  by_cases h : c0 = '\r'
  · rw [← hmap, h]; decide
  · rw [← hmap, if_neg h]; exact hs c0 hc0

theorem dropTrailingSpTab_subset {l : List Char} : ∀ c ∈ dropTrailingSpTab l, c ∈ l := by
  intro c hc
  unfold dropTrailingSpTab at hc
  rw [List.mem_reverse] at hc
  have := (List.dropWhile_sublist _).mem hc
  exact List.mem_reverse.mp this

theorem stripTrailingWsLines_ws {s : List Char} (hs : WsOnly s) :
    WsOnly (stripTrailingWsLines s) := by
  intro c hc
  unfold stripTrailingWsLines at hc
  rcases mem_joinNlChars hc with ⟨l, hl, hcl⟩ | h
  · rcases List.mem_map.mp hl with ⟨l0, hl0, hml⟩
    have hc0 : c ∈ dropTrailingSpTab l0 := by rw [hml]; exact hcl
    exact hs c (mem_splitNlChars hl0 c (dropTrailingSpTab_subset c hc0))
  · subst h; decide

theorem normalizeContent_ws {t : String} (hs : WsOnly t.data) :
    WsOnly (normalizeContent t).data := by
  show WsOnly (stripTrailingWsLines (crToNl (crlfToNl (stripQuotes t.data))))
  rw [stripQuotes_ws hs]
  exact stripTrailingWsLines_ws (crToNl_ws (crlfToNl_ws t.data.length t.data le_rfl hs))

theorem subAt_false_of_head {s : List Char} {c0 : Char} (h : c0 ∉ s) (rest : List Char)
    (pos : Nat) : subAt s (c0 :: rest) pos = false := by
  unfold subAt
  rw [List.all_eq_false]
  refine ⟨(0, c0), ?_, ?_⟩
  · rw [List.enum_cons]
    exact List.mem_cons_self _ _
  · simp only [decide_eq_true_eq]
    intro hg
    rw [Nat.add_zero] at hg
    exact h (mem_of_get?_eq_some hg)

theorem findSub_none_of_head {s : List Char} {c0 : Char} (h : c0 ∉ s) (rest : List Char) :
    ∀ (fuel pos : Nat), findSubAux s (c0 :: rest) fuel pos = none := by
  intro fuel
  induction fuel with
  | zero => intro pos; rfl
  | succ n ih =>
    intro pos
    show (if subAt s (c0 :: rest) pos then some pos
      else if pos < s.length then findSubAux s (c0 :: rest) n (pos + 1) else none) = none
    rw [subAt_false_of_head h rest pos]
    by_cases hp : pos < s.length <;> simp [hp, ih]

theorem protectFenced_ws {s : List Char} (hs : WsOnly s) (fuel : Nat) :
    ∀ pos acc, protectFenced s fuel pos acc = (s.drop pos, acc) := by
  have hb : '`' ∉ s := not_mem_of_wsOnly hs (by decide)
  intro pos acc
  cases fuel with
  | zero => rfl
  | succ n =>
    show (match findSub s "```".data pos with
      | none => (s.drop pos, acc)
      | some st => _) = (s.drop pos, acc)
    have : findSub s "```".data pos = none := findSub_none_of_head hb _ _ _
    rw [this]

theorem protectInline_ws {s : List Char} (hs : WsOnly s) (fuel : Nat) :
    ∀ pos acc, protectInline s fuel pos acc = (s.drop pos, acc) := by
  have hb : '`' ∉ s := not_mem_of_wsOnly hs (by decide)
  intro pos acc
  cases fuel with
  | zero => rfl
  | succ n =>
    show (match findSub s ['`'] pos with
      | none => (s.drop pos, acc)
      | some st => _) = (s.drop pos, acc)
    have : findSub s ['`'] pos = none := findSub_none_of_head hb _ _ _
    rw [this]

theorem protectCodeBlocks_ws {t : String} (hs : WsOnly t.data) :
    protectCodeBlocks t = (t, [], []) := by
  unfold protectCodeBlocks
  simp only [protectFenced_ws hs, List.drop_zero, protectInline_ws hs, string_mk_data]

theorem processHeaders_ws {t : String} (hs : WsOnly t.data) : processHeaders t = t := by
  simp only [processHeaders, jsReplaceAll_of_nm (nm_reATX_ws hs),
    jsReplaceAll_of_nm (nm_reAltHdr_ws hs), jsReplaceAll_of_nm (nm_reSetextEq_ws hs),
    jsReplaceAll_of_nm (nm_reSetextDash_ws hs)]

theorem processTextFormatting_ws {t : String} (hs : WsOnly t.data) :
    processTextFormatting t = t := by
  simp only [processTextFormatting, jsReplaceAll_of_nm (nm_reDq_ws hs),
    jsReplaceAll_of_nm (nm_reBold_ws hs), jsReplaceAll_of_nm (nm_reItalic_ws hs),
    jsReplaceAll_of_nm (nm_reStrike_ws hs)]

theorem processBlockquotes_ws {t : String} (hs : WsOnly t.data) :
    processBlockquotes t = t := by
  simp only [processBlockquotes, jsReplaceAll_of_nm (nm_reBq_ws hs),
    jsReplaceAll_of_nm (nm_reBqMerge_ws hs)]

theorem processHorizontalRules_ws {t : String} (hs : WsOnly t.data) :
    processHorizontalRules t = t := jsReplaceAll_of_nm (nm_reHr_ws hs) _

theorem processLinksAndImages_ws {t : String} (hs : WsOnly t.data) :
    processLinksAndImages t = t := by
  simp only [processLinksAndImages, jsReplaceAll_of_nm (nm_reImg_ws hs),
    jsReplaceAll_of_nm (nm_reLink_ws hs), jsReplaceAll_of_nm (nm_reAuto_ws hs)]

theorem matchListLine_none_of_ws {line : String} (h : WsOnly line.data) :
    matchListLine line = none := by
  unfold matchListLine
  rw [jsMatch_none_of_nm (nm_reListLine_ws h)]

/-- A blank line (in the JS sense: `line.trim() === ''`) can never be a list
candidate, and `processLists` leaves the stack untouched and emits the line
unchanged. -/
theorem processLine_blank (lines : List String) (indentLevels : List (Nat × Nat))
    (idx : Nat) (line : String) (stack : List ListCtx) (h : jsTrim line = "") :
    processLine lines indentLevels idx line stack = (stack, [line]) := by
  have hws : WsOnly line.data := (jsTrim_eq_empty_iff line).mp h
  unfold processLine
  rw [matchListLine_none_of_ws hws]
  simp [h]

theorem walkLines_blank (lines : List String) (m : List (Nat × Nat))
    (h : ∀ l ∈ lines, jsTrim l = "") : walkLines lines m = ([], lines) := by
  unfold walkLines
  have key : ∀ n, n ≤ lines.length →
      (List.range n).foldl
        (fun acc i =>
          let step := processLine lines m i (lines.getD i "") acc.1
          (step.1, acc.2 ++ step.2)) ([], []) = ([], lines.take n) := by
    intro n
    induction n with
    | zero => intro _; rfl
    | succ k ih =>
      intro hk
      have hklt : k < lines.length := hk
      rw [List.range_succ, List.foldl_append, ih (Nat.le_of_succ_le hk)]
      have hmem : lines.getD k "" ∈ lines := by
        rw [List.getD_eq_getElem lines "" hklt]
        exact List.getElem_mem _
      simp only [List.foldl_cons, List.foldl_nil]
      rw [processLine_blank lines m k (lines.getD k "") [] (h _ hmem)]
      rw [List.take_succ, List.getElem?_eq_getElem hklt]
      rw [List.getD_eq_getElem lines "" hklt]
      rfl
  rw [key lines.length le_rfl, List.take_length]

theorem processLists_ws {t : String} (hs : WsOnly t.data) : processLists t = t := by
  simp only [processLists]
  have hlines : ∀ l ∈ splitNl t, jsTrim l = "" := by
    intro l hl
    rcases List.mem_map.mp hl with ⟨l0, hl0, hml⟩
    rw [jsTrim_eq_empty_iff]
    intro c hc
    have hc0 : c ∈ l0 := by rw [← hml] at hc; exact hc
    exact hs c (mem_splitNlChars hl0 c hc0)
  rw [walkLines_blank _ _ hlines]
  show joinNl (splitNl t ++ closeAllLists []) = t
  simp only [closeAllLists, List.map_nil, List.append_nil]
  exact joinNl_splitNl t


theorem mem_splitReAux {s : List Char} {r : RE} :
    ∀ (fuel pos : Nat) (l' : List Char), l' ∈ splitReAux s r fuel pos → ∀ c ∈ l', c ∈ s := by
  intro fuel
  induction fuel with
  | zero =>
    intro pos l' hl' c hc
    simp only [splitReAux, List.mem_singleton] at hl'
    subst hl'
    exact List.drop_subset _ _ hc
  | succ n ih =>
    intro pos l' hl' c hc
    rw [show splitReAux s r (n + 1) pos = (match searchFrom s r pos with
      | none => [s.drop pos]
      | some (st, en, _) =>
        if en = st then [s.drop pos]
        else slice s pos st :: splitReAux s r n en) from rfl] at hl'
    cases hsf : searchFrom s r pos with
    | none =>
      rw [hsf] at hl'
      simp only [List.mem_singleton] at hl'
      subst hl'
      exact List.drop_subset _ _ hc
    | some res =>
      obtain ⟨st, en, caps⟩ := res
      rw [hsf] at hl'
      dsimp only at hl'
      by_cases hee : en = st
      · rw [if_pos hee] at hl'
        simp only [List.mem_singleton] at hl'
        subst hl'
        exact List.drop_subset _ _ hc
      · rw [if_neg hee] at hl'
        rcases List.mem_cons.mp hl' with h1 | h1
        · subst h1
          exact List.drop_subset _ _ (List.take_subset _ _ hc)
        · exact ih en l' h1 c hc

theorem processParagraphs_ws {t : String} (hs : WsOnly t.data) : processParagraphs t = "" := by
  unfold processParagraphs
  have hblocks : ∀ b ∈ jsSplitRe t reBlockSep, processBlock b = [] := by
    intro b hb
    rcases List.mem_map.mp hb with ⟨l0, hl0, hml⟩
    have hwsb : WsOnly b.data := by
      intro c hc
      have hc0 : c ∈ l0 := by rw [← hml] at hc; exact hc
      exact hs c (mem_splitReAux _ _ l0 hl0 c hc0)
    simp only [processBlock, (jsTrim_eq_empty_iff b).mpr hwsb, if_pos]
  have hfold : ∀ (bs : List String), (∀ b ∈ bs, processBlock b = []) →
      bs.foldr (fun b acc => processBlock b ++ acc) [] = [] := by
    intro bs
    induction bs with
    | nil => intro _; rfl
    | cons b rest ih =>
      intro hall
      rw [List.foldr_cons, hall b (List.mem_cons_self _ _),
        ih fun b' hb' => hall b' (List.mem_cons_of_mem _ hb')]
      rfl
  rw [hfold _ hblocks]
  rfl

/-! ## Rank-map lemmas (for the indentation-level analysis) -/

theorem lookup_rankMap_ge : ∀ (l : List Nat) (i w d : Nat),
    List.lookup w (rankMap l i) = some d → i ≤ d := by
  intro l
  induction l with
  | nil => intro i w d h; cases h
  | cons x xs ih =>
    intro i w d h
    rw [show rankMap (x :: xs) i = (x, i) :: rankMap xs (i + 1) from rfl,
      List.lookup_cons] at h
    split at h
    · cases h; exact le_rfl
    · exact Nat.le_of_succ_le (ih (i + 1) w d h)

theorem lookup_rankMap_mem : ∀ (l : List Nat) (i w d : Nat),
    List.lookup w (rankMap l i) = some d → w ∈ l := by
  intro l
  induction l with
  | nil => intro i w d h; cases h
  | cons x xs ih =>
    intro i w d h
    rw [show rankMap (x :: xs) i = (x, i) :: rankMap xs (i + 1) from rfl,
      List.lookup_cons] at h
    split at h
    · next heq => exact (beq_iff_eq.mp heq) ▸ List.mem_cons_self x xs
    · exact List.mem_cons_of_mem x (ih (i + 1) w d h)

theorem lookup_rankMap_mono : ∀ (l : List Nat), List.Sorted (· < ·) l →
    ∀ (i w1 d1 w2 d2 : Nat),
      List.lookup w1 (rankMap l i) = some d1 →
      List.lookup w2 (rankMap l i) = some d2 → w1 ≤ w2 → d1 ≤ d2 := by
  intro l
  induction l with
  | nil => intro _ i w1 d1 w2 d2 h1; cases h1
  | cons x xs ih =>
    intro hsort i w1 d1 w2 d2 h1 h2 hw
    have hx : ∀ y ∈ xs, x < y := List.rel_of_sorted_cons hsort
    rw [show rankMap (x :: xs) i = (x, i) :: rankMap xs (i + 1) from rfl,
      List.lookup_cons] at h1 h2
    split at h1
    · cases h1
      split at h2
      · cases h2; exact le_rfl
      · exact Nat.le_of_succ_le (lookup_rankMap_ge xs (i + 1) w2 d2 h2)
    · next heq1 =>
      split at h2
      · next heq2 =>
        exfalso
        have hw1x : ¬ w1 = x := by
          intro e
          rw [e] at heq1
          simp at heq1
        have hw2x : w2 = x := beq_iff_eq.mp heq2
        have hmem : w1 ∈ xs := lookup_rankMap_mem xs (i + 1) w1 d1 h1
        have : x < w1 := hx w1 hmem
        omega
      · exact ih (List.sorted_cons.mp hsort).2 (i + 1) w1 d1 w2 d2 h1 h2 hw

theorem sorted_cons_head_le (x : Nat) (xs : List Nat)
    (hsort : List.Sorted (· < ·) (x :: xs)) (w : Nat) (hw : w ∈ x :: xs) : x ≤ w := by
  rcases List.mem_cons.mp hw with h | h
  · exact h ▸ le_rfl
  · exact le_of_lt (List.rel_of_sorted_cons hsort w h)

theorem analyze_sorted (lines : List String) :
    List.Sorted (· < ·)
      (List.insertionSort (· ≤ ·) (lines.filterMap scanIndent).dedup) := by
  have hs : List.Sorted (· ≤ ·)
      (List.insertionSort (· ≤ ·) (lines.filterMap scanIndent).dedup) :=
    List.sorted_insertionSort _ _
  have hn : (List.insertionSort (· ≤ ·) (lines.filterMap scanIndent).dedup).Nodup :=
    (List.perm_insertionSort _ _).nodup_iff.mpr (List.nodup_dedup _)
  exact List.Sorted.lt_of_le hs hn

/-! ## Claim theorems -/

/-- C5: in `analyzeIndentationLevels` every used indent width is assigned its
sorted rank among the distinct observed widths, `calculateNestingLevel`
returns exactly that rank for used widths, depth is monotone non-decreasing
in indent width, and the smallest used width is always assigned depth 0. -/
theorem c5_indent_rank_monotone :
    (∀ (lines : List String) (w1 d1 w2 d2 : Nat),
        List.lookup w1 (analyzeIndentationLevels lines) = some d1 →
        List.lookup w2 (analyzeIndentationLevels lines) = some d2 →
        w1 ≤ w2 →
        calculateNestingLevel w1 (analyzeIndentationLevels lines) = d1 ∧
        calculateNestingLevel w2 (analyzeIndentationLevels lines) = d2 ∧
        d1 ≤ d2) ∧
    (∀ (lines : List String) (w d : Nat),
        List.lookup w (analyzeIndentationLevels lines) = some d →
        (∀ w' d', List.lookup w' (analyzeIndentationLevels lines) = some d' → w ≤ w') →
        d = 0) := by
  constructor
  · intro lines w1 d1 w2 d2 h1 h2 hw
    refine ⟨?_, ?_, lookup_rankMap_mono _ (analyze_sorted lines) 0 w1 d1 w2 d2 h1 h2 hw⟩
    · unfold calculateNestingLevel
      rw [h1]
    · unfold calculateNestingLevel
      rw [h2]
  · intro lines w d hlk hmin
    have hsort := analyze_sorted lines
    have hmem : w ∈ List.insertionSort (· ≤ ·) (lines.filterMap scanIndent).dedup :=
      lookup_rankMap_mem _ 0 w d hlk
    cases hLc : List.insertionSort (· ≤ ·) (lines.filterMap scanIndent).dedup with
    | nil => rw [hLc] at hmem; cases hmem
    | cons x xs =>
      have hx0 : List.lookup x (analyzeIndentationLevels lines) = some 0 := by
        show List.lookup x (rankMap (List.insertionSort (· ≤ ·)
          (lines.filterMap scanIndent).dedup) 0) = some 0
        rw [hLc]
        show List.lookup x ((x, 0) :: rankMap xs 1) = some 0
        rw [List.lookup_cons]
        simp
      have hwx : w ≤ x := hmin x 0 hx0
      have hxw : x ≤ w := by
        refine sorted_cons_head_le x xs ?_ w ?_
        · rw [← hLc]; exact hsort
        · rw [← hLc]; exact hmem
      have hwe : w = x := le_antisymm hwx hxw
      rw [hwe] at hlk
      rw [hx0] at hlk
      cases hlk
      rfl

/-- Witness for C5 at the concrete document `["- a", "  - b"]`, whose used
indent widths 0 and 2 get depths 0 and 1. -/
theorem c5_indent_rank_monotone_witness :
    calculateNestingLevel 0 (analyzeIndentationLevels ["- a", "  - b"]) = 0 ∧
    calculateNestingLevel 2 (analyzeIndentationLevels ["- a", "  - b"]) = 1 ∧
    (0 : Nat) ≤ 1 := by
  have h1 : List.lookup 0 (analyzeIndentationLevels ["- a", "  - b"]) = some 0 := by decide
  have h2 : List.lookup 2 (analyzeIndentationLevels ["- a", "  - b"]) = some 1 := by decide
  have h := c5_indent_rank_monotone.1 ["- a", "  - b"] 0 0 2 1 h1 h2 (by decide)
  have h0 := c5_indent_rank_monotone.2 ["- a", "  - b"] 0 0 h1
    (fun w' d' _ => Nat.zero_le w')
  exact ⟨h.1, h.2.1, h.2.2⟩

/-- C7: in the list-processing walk a blank line (`line.trim() === ''`)
never closes any open context and is emitted unchanged; a non-blank line
that is not an accepted list candidate (no marker match, or the classifier
rejects it) closes the entire stack, innermost context first, and is then
emitted unchanged; and `processLists` closes every context still open at
document end. -/
theorem c7_stack_discipline :
    (∀ (lines : List String) (m : List (Nat × Nat)) (idx : Nat) (line : String)
        (stack : List ListCtx), jsTrim line = "" →
        processLine lines m idx line stack = (stack, [line])) ∧
    (∀ (lines : List String) (m : List (Nat × Nat)) (idx : Nat) (line : String)
        (stack : List ListCtx), jsTrim line ≠ "" →
        (matchListLine line = none ∨
          ∃ mm, matchListLine line = some mm ∧
            isActualListItem lines idx mm.marker mm.indent = false) →
        processLine lines m idx line stack =
          ([], (stack.map fun c => "</" ++ c.type ++ ">") ++ [line])) ∧
    (∀ text : String,
        processLists text =
          joinNl ((walkLines (splitNl text) (analyzeIndentationLevels (splitNl text))).2 ++
            closeAllLists (walkLines (splitNl text) (analyzeIndentationLevels (splitNl text))).1)) := by
  refine ⟨processLine_blank, ?_, fun text => rfl⟩
  intro lines m idx line stack hnb hrej
  rcases hrej with hnone | ⟨mm, hsome, hfalse⟩
  · unfold processLine
    rw [hnone, if_pos hnb]
    rfl
  · unfold processLine
    rw [hsome]
    dsimp only
    rw [if_neg (by rw [hfalse]; exact Bool.false_ne_true)]
    rfl

/-- Witness for C7: a blank line keeps an open `ul` context, a plain text
line closes it first. -/
theorem c7_stack_discipline_witness :
    processLine [] [] 0 " " [ListCtx.mk "ul" 0] = ([ListCtx.mk "ul" 0], [" "]) ∧
    processLine [] [] 0 "hello" [ListCtx.mk "ul" 0] = ([], ["</ul>", "hello"]) := by
  constructor
  · exact c7_stack_discipline.1 [] [] 0 " " [ListCtx.mk "ul" 0] (by decide)
  · have h := c7_stack_discipline.2.1 [] [] 0 "hello" [ListCtx.mk "ul" 0]
      (by decide) (Or.inl (by decide))
    exact h.trans (by decide)

/-- C10: for every input consisting only of whitespace characters (including
the empty string), `convertMarkdownToHTML` returns the empty string — no
paragraph, list or other wrapper element is emitted. -/
theorem c10_ws_only_empty (s : String) (hs : WsOnly s.data) :
    convertMarkdownToHTML s = "" := by
  show pipelineSteps s = ""
  have h1 : WsOnly (normalizeContent s).data := normalizeContent_ws hs
  simp only [pipelineSteps, protectCodeBlocks_ws h1]
  rw [processHeaders_ws h1, processTextFormatting_ws h1, processBlockquotes_ws h1,
    processLists_ws h1, processHorizontalRules_ws h1, processLinksAndImages_ws h1]
  show finalCleanup (processParagraphs (normalizeContent s)) = ""
  rw [processParagraphs_ws h1]
  decide

/-- Witness for C10 at the whitespace-only input `" \n\t"`. -/
theorem c10_ws_only_empty_witness : convertMarkdownToHTML " \n\t" = "" :=
  c10_ws_only_empty " \n\t" (by unfold WsOnly; decide)

/-- C1 (code bug): protected code does NOT round-trip.  The normalization
step strips the backticks of a whole-document inline span as if they were
surrounding quotes, so `` `<b>` `` reaches the output as a raw, unescaped
`<b>` instead of `<code>&lt;b&gt;</code>`; and for a fenced block the
placeholder `__CODE_BLOCK_0__` itself matches the `__bold__` rule, so the
bold pass destroys it, restoration finds nothing, and the fenced content
(`* not a list *`) disappears from the output entirely. -/
theorem c1_code_protection_bug :
    convertMarkdownToHTML "`<b>`" = "<p><b></p>" ∧
    convertMarkdownToHTML "`<b>`" ≠ "<code>&lt;b&gt;</code>" ∧
    convertMarkdownToHTML "```\n* not a list *\n```\n" =
      "<p><strong>CODE<em>BLOCK</em>0</strong></p>" ∧
    processTextFormatting "__INLINE_CODE_0__" = "<strong>INLINE<em>CODE</em>0</strong>" := by
  refine ⟨by decide, by decide, by decide, by decide⟩

/-- C2 (counterexample): a document that itself contains the
placeholder-shaped substring `__CODE_BLOCK_0__` before a real fenced block
has its user-written text replaced by the stored fragment, and the real
placeholder survives literally — restoration is NOT by exact key. -/
theorem c2_counterexample :
    restoreCodeBlocks (protectCodeBlocks "__CODE_BLOCK_0__ ```x```").1
        (protectCodeBlocks "__CODE_BLOCK_0__ ```x```").2.1
        (protectCodeBlocks "__CODE_BLOCK_0__ ```x```").2.2 =
      "<pre><code>x</code></pre> __CODE_BLOCK_0__" ∧
    restoreCodeBlocks (protectCodeBlocks "__CODE_BLOCK_0__ ```x```").1
        (protectCodeBlocks "__CODE_BLOCK_0__ ```x```").2.1
        (protectCodeBlocks "__CODE_BLOCK_0__ ```x```").2.2 ≠
      "__CODE_BLOCK_0__ <pre><code>x</code></pre>" := by
  refine ⟨by decide, by decide⟩

/-- C2 (amended): restoration substitutes each stored fragment for the FIRST
occurrence of its placeholder text (`String.replace` with string arguments),
not by an exact key; on the adversarial document the fragment therefore
lands on the user-written placeholder-shaped text. -/
theorem c2_first_occurrence_restoration :
    (∀ t frag : String,
        restoreCodeBlocks t [frag] [] = jsReplaceFirst t "__CODE_BLOCK_0__" frag) ∧
    protectCodeBlocks "__CODE_BLOCK_0__ ```x```" =
      ("__CODE_BLOCK_0__ __CODE_BLOCK_0__", ["<pre><code>x</code></pre>"], []) := by
  refine ⟨fun t frag => rfl, by decide⟩

/-- C3 (code bug): the three lines `a. First`, `b. Second`, `c. Third` each
become an `<li>`, but `adjustListStack` closes and reopens the level-0 list
around every item, so they are emitted as three single-item `<ol>`
containers instead of one. -/
theorem c3_letter_list_fragmentation :
    convertMarkdownToHTML "a. First\nb. Second\nc. Third" =
      "<ol><li>First</li></ol><ol><li>Second</li></ol><ol><li>Third</li></ol>" := by
  decide

/-- C4: `convertMarkdownToHTML` is the pipeline under a single failure
boundary — it always returns a string, and whenever the supervised body
fails the result is exactly the HTML-escaped raw input inside a
preformatted block with the fixed diagnostic, never a fragment of
intermediate pipeline state. -/
theorem c4_total_with_fallback :
    (∀ md : String, convertMarkdownToHTML md = pipelineSteps md) ∧
    (∀ (run : String → Option String) (md : String), run md = none →
        convertCaught run md =
          "<p>Error rendering content. Raw content:</p><pre>" ++ escapeHtml md ++ "</pre>") ∧
    (∀ (run : String → Option String) (md h : String), run md = some h →
        convertCaught run md = h) := by
  refine ⟨fun md => rfl, ?_, ?_⟩
  · intro run md hnone
    unfold convertCaught
    rw [hnone]
  · intro run md h hsome
    unfold convertCaught
    rw [hsome]

/-- Witness for C4: a failing body degrades `<b>` to the escaped fallback;
a succeeding body is returned as-is. -/
theorem c4_total_with_fallback_witness :
    convertCaught (fun _ => none) "<b>" =
      "<p>Error rendering content. Raw content:</p><pre>&lt;b&gt;</pre>" ∧
    convertCaught (fun _ => some "ok") "<b>" = "ok" := by
  constructor
  · have h := c4_total_with_fallback.2.1 (fun _ => none) "<b>" rfl
    rw [h]
    decide
  · exact c4_total_with_fallback.2.2 (fun _ => some "ok") "<b>" "ok" rfl

/-- C6: `B. Spielberger directed the film.` with no other list-like lines
nearby is rejected by the classifier and rendered as a plain paragraph,
never as a list item. -/
theorem c6_name_shape_rejected :
    isActualListItem ["B. Spielberger directed the film."] 0 "B." 0 = false ∧
    convertMarkdownToHTML "B. Spielberger directed the film." =
      "<p>B. Spielberger directed the film.</p>" := by
  refine ⟨by decide, by decide⟩

/-- C8 (counterexample): a heading produced by the header pass that sits
strictly INSIDE a blank-line-delimited block (inline text before and after
it) is wrapped in the surrounding `<p>` container. -/
theorem c8_counterexample :
    convertMarkdownToHTML "text\n# Hi\nmore" = "<p>text<br><h1>Hi</h1>more</p>" ∧
    processParagraphs "text\n<h1>Hi</h1>\nmore" = "<p>text<br><h1>Hi</h1><br>more</p>" := by
  refine ⟨by decide, by decide⟩

/-- C8 (amended): a block whose trimmed text starts with a block-level
opener or ends with a block-level closer (and is not the header-plus-text
shape, which is split instead) is passed through verbatim, never wrapped in
a paragraph container; only block-level content strictly inside a block with
inline edges gets wrapped. -/
theorem c8_edge_blocks_unwrapped (b : String)
    (hne : jsTrim b ≠ "")
    (hhdr : jsMatch (jsTrim b) reHdrWithText = none)
    (hblk : jsTest (jsTrim b) reBlockStart = true ∨ jsTest (jsTrim b) reBlockEnd = true) :
    processBlock b = [jsTrim b] := by
  simp only [processBlock]
  rw [if_neg hne, hhdr]
  have hcond : (jsTest (jsTrim b) reBlockStart || jsTest (jsTrim b) reBlockEnd) = true := by
    rcases hblk with h | h
    · rw [h]; rfl
    · rw [h]; exact Bool.or_true _
  rw [hcond]
  rfl

/-- Witness for C8 at the block `<hr>`. -/
theorem c8_edge_blocks_unwrapped_witness : processBlock "<hr>" = ["<hr>"] :=
  c8_edge_blocks_unwrapped "<hr>" (by decide) (by decide) (Or.inl (by decide))

/-- C9 (counterexample): the quote-stripping step uses a character class at
both ends, so the MISMATCHED pair in `"abc'` is also stripped — the claim
that mismatched quotes are left unchanged is false. -/
theorem c9_counterexample :
    stripQuotes "\"abc'".data = "abc".data ∧
    normalizeContent "\"abc'" = "abc" ∧
    normalizeContent "\"abc'" ≠ "\"abc'" := by
  refine ⟨by decide, by decide, by decide⟩

/-- C9 (amended): the normalize step strips one surrounding layer whenever
the first and last characters are each ANY quote character (`"`, `'` or
backtick), matching or not, over a document of length at least 2. -/
theorem c9_any_quote_pair_stripped (a b : Char) (mid : List Char)
    (ha : a ∈ quoteChars) (hb : b ∈ quoteChars) :
    stripQuotes (a :: (mid ++ [b])) = mid := by
  have hl : (a :: (mid ++ [b])).getLast? = some b := by
    rw [show a :: (mid ++ [b]) = (a :: mid) ++ [b] from rfl]
    exact List.getLast?_concat _
  unfold stripQuotes
  rw [hl, show (a :: (mid ++ [b])).head? = some a from rfl]
  show (if 2 ≤ (a :: (mid ++ [b])).length ∧ a ∈ quoteChars ∧ b ∈ quoteChars then
      (List.drop 1 (a :: (mid ++ [b]))).dropLast
    else a :: (mid ++ [b])) = mid
  rw [if_pos ⟨by simp, ha, hb⟩]
  show (mid ++ [b]).dropLast = mid
  exact List.dropLast_concat

/-- Witness for C9: a double-quote/backtick pair around `ab` is stripped. -/
theorem c9_any_quote_pair_stripped_witness :
    stripQuotes ('"' :: ("ab".data ++ ['`'])) = "ab".data :=
  c9_any_quote_pair_stripped '"' '`' "ab".data (by decide) (by decide)

end RenderDown
